import Mathlib

/-!
# Study Planner scheduling engine: a verified shallow embedding

This file embeds the scheduling engine of the Study Planner repository
(`src/lib/scheduler.ts`) in Lean 4 and proves properties of it.

Modelling conventions:

* Instants are integer minutes (`ℤ`) on a single absolute timeline; a calendar
  day is 1440 minutes and day boundaries are the multiples of 1440.  This is the
  resolution at which the engine works (all configured windows are whole hours,
  all durations are whole minutes), so on such inputs the embedding computes
  exactly what the TypeScript does.  `date-fns` helpers become integer
  arithmetic: `differenceInMinutes` is subtraction, `differenceInDays`
  truncates toward zero (`Int.tdiv`), `startOfDay` floors to a multiple of 1440
  (`Int.fdiv`), `getDay` is the day number mod 7 (day 0 of the timeline is
  labelled weekday 0, the label the source gives Sunday).
* Task effort (`estimated_hours`) is modelled as an integer number of hours;
  on integer-hour tasks every quantity the engine manipulates is an integer.
* The two float-valued heuristics (day saturation, priority score) are carried
  as exact fractions (`Frac`, an unreduced `ℤ × ℤ` pair with positive
  denominator by construction) because they are only ever compared, never
  rounded; comparison is cross multiplication.
* `crypto.randomUUID()` is replaced by a deterministic fresh id; ids of
  generated blocks are never consulted by the engine.
* JavaScript `Map`s keyed by day index become a list indexed by position
  (`inventory`) and a total function with default 0 (`dailyTaskUsage`), which
  is exactly the `get(...) || 0` discipline of the source.
-/

namespace StudyPlanner

/-! ## Time model (date-fns helpers at minute resolution) -/

/-- `startOfDay`: floor an instant to its day boundary (a multiple of 1440). -/
def startOfDay (t : ℤ) : ℤ := 1440 * Int.fdiv t 1440

/-- `addDays` on instants measured in minutes. -/
def addDays (t : ℤ) (n : ℤ) : ℤ := t + 1440 * n

/-- `addMinutes` on instants measured in minutes. -/
def addMinutes (t : ℤ) (m : ℤ) : ℤ := t + m

/-- `getDay`: weekday index 0..6 of an instant (day 0 of the timeline is
weekday 0, which the source's configuration labels Sunday). -/
def getDay (t : ℤ) : ℤ := (Int.fdiv t 1440) % 7

/-- `differenceInMinutes` of two minute-resolution instants. -/
def differenceInMinutes (a b : ℤ) : ℤ := a - b

/-- `differenceInDays`: number of whole 24h periods, truncated toward zero
(the `date-fns` rounding). -/
def differenceInDays (a b : ℤ) : ℤ := Int.tdiv (a - b) 1440

/-- `Math.ceil (a / b)` for a positive divisor `b`. -/
def ceilDiv (a b : ℤ) : ℤ := -(Int.fdiv (-a) b)

/-! ## Exact fractions for the float-valued heuristics -/

/-- An unreduced fraction.  All fractions the engine builds have a positive
denominator, so `lt`/`le` below (cross multiplication) agree with the real
ordering of their values. -/
structure Frac where
  num : ℤ
  den : ℤ
deriving Repr, DecidableEq

namespace Frac

def add (a b : Frac) : Frac := ⟨a.num * b.den + b.num * a.den, a.den * b.den⟩

def sub (a b : Frac) : Frac := ⟨a.num * b.den - b.num * a.den, a.den * b.den⟩

def mul (a b : Frac) : Frac := ⟨a.num * b.num, a.den * b.den⟩

def div (a b : Frac) : Frac := ⟨a.num * b.den, a.den * b.num⟩

def lt (a b : Frac) : Bool := decide (a.num * b.den < b.num * a.den)

def le (a b : Frac) : Bool := decide (a.num * b.den ≤ b.num * a.den)

/-- `Math.max` of a fraction and another fraction. -/
def max (a b : Frac) : Frac := if lt a b then b else a

end Frac

/-! ## Entities (`src/types/index.ts`) -/

structure Task where
  id : String
  user_id : String
  title : String
  deadline : ℤ
  estimated_hours : ℤ
  difficulty : ℤ
  importance : ℤ
  created_at : ℤ
deriving Repr, DecidableEq

structure FixedEvent where
  id : String
  user_id : String
  title : String
  start_at : ℤ
  end_at : ℤ
  description : Option String
  color : Option String
  created_at : ℤ
  updated_at : ℤ
deriving Repr, DecidableEq

structure ScheduleBlock where
  id : String
  user_id : String
  task_id : String
  title : String
  start_at : ℤ
  end_at : ℤ
  duration_minutes : ℤ
  is_locked : Bool
  color : Option String
  created_at : ℤ
  updated_at : ℤ
deriving Repr, DecidableEq

structure TimeSlot where
  start : ℤ
  «end» : ℤ
deriving Repr, DecidableEq

/-- One weekday entry of `dailyWorkHours` (start hour, end hour). -/
structure DayHours where
  start : ℤ
  «end» : ℤ
deriving Repr, DecidableEq

/-- Scheduler policy object.  `dailyWorkHours` is an association list keyed by
weekday 0..6 (the source's record with optional entries). -/
structure SchedulerConfig where
  dailyWorkHours : List (ℤ × DayHours)
  minBlockMinutes : ℤ
  maxBlockMinutes : ℤ
  breakBetweenBlocks : ℤ
  maxDailyMinutesPerTask : ℤ
deriving Repr, DecidableEq

structure SchedulerWarning where
  taskId : String
  taskTitle : String
  message : String
  unscheduledHours : Frac
deriving Repr, DecidableEq

structure SchedulerResult where
  success : Bool
  createdBlocks : List ScheduleBlock
  warnings : List SchedulerWarning
deriving Repr, DecidableEq

/-! ## Configuration constants -/

def DEFAULT_SCHEDULER_CONFIG : SchedulerConfig :=
  { dailyWorkHours :=
      [(0, ⟨10, 18⟩),
       (1, ⟨8, 22⟩),
       (2, ⟨8, 22⟩),
       (3, ⟨8, 22⟩),
       (4, ⟨8, 22⟩),
       (5, ⟨8, 22⟩),
       (6, ⟨10, 18⟩)]
    minBlockMinutes := 30
    maxBlockMinutes := 120
    breakBetweenBlocks := 15
    maxDailyMinutesPerTask := 120 }

structure RoundRobinConfig where
  MIN_SPACING_DAYS : ℤ
  MAX_DAILY_TOTAL_STUDY : ℤ
  DAILY_SATURATION_THRESHOLD : Frac
  PREFERRED_SESSION_DURATIONS : List ℤ
deriving Repr, DecidableEq

def ROUND_ROBIN_CONFIG : RoundRobinConfig :=
  { MIN_SPACING_DAYS := 1
    MAX_DAILY_TOTAL_STUDY := 360
    DAILY_SATURATION_THRESHOLD := ⟨75, 100⟩
    PREFERRED_SESSION_DURATIONS := [120, 90, 60, 45, 30] }

/-! ## Interval utilities -/

/-- `date-fns` `areIntervalsOverlapping` with default options: each interval's
endpoints are sorted, then overlap is strict intersection (touching endpoints
do not overlap). -/
def areIntervalsOverlapping (start1 end1 start2 end2 : ℤ) : Bool :=
  let lS := min start1 end1
  let lE := max start1 end1
  let rS := min start2 end2
  let rE := max start2 end2
  decide (lS < rE) && decide (rS < lE)

def doTimeRangesOverlap (start1 end1 start2 end2 : ℤ) : Bool :=
  areIntervalsOverlapping start1 end1 start2 end2

/-! ## Blocked ranges and free slots -/

/-- Collect fixed events and locked blocks as (start, end) pairs, sorted by
start time (a stable sort, as JavaScript `sort` is). -/
def getBlockedRanges (fixedEvents : List FixedEvent)
    (lockedBlocks : List ScheduleBlock) : List (ℤ × ℤ) :=
  ((fixedEvents.map fun event => (event.start_at, event.end_at)) ++
    (lockedBlocks.map fun block => (block.start_at, block.end_at))).insertionSort
    (fun a b => a.1 ≤ b.1)

/-- Working window of a day, if its weekday is configured:
`[dayStart + startHour, dayStart + endHour]` in minutes. -/
def getWorkingSlots (day : ℤ) (config : SchedulerConfig) : Option TimeSlot :=
  match config.dailyWorkHours.lookup (getDay day) with
  | none => none
  | some dayConfig =>
      let dayStart := startOfDay day
      some ⟨dayStart + 60 * dayConfig.start, dayStart + 60 * dayConfig.«end»⟩

/-- The free slot (if any) emitted in front of one blocked range: when the
blocked range starts after the cursor, the gap up to its start, clipped to the
window end, is free. -/
def gapBefore (whEnd currentStart : ℤ) (blocked : ℤ × ℤ) : List TimeSlot :=
  if currentStart < blocked.1 then
    let freeEnd := if blocked.1 < whEnd then blocked.1 else whEnd
    if currentStart < freeEnd then [⟨currentStart, freeEnd⟩] else []
  else []

/-- The cursor sweep of `findFreeSlots`: walk the blocked ranges, emitting the
uncovered gap before each one and advancing the cursor past it, then emit the
remainder up to the window end. -/
def sweepFreeSlots (whEnd : ℤ) : ℤ → List (ℤ × ℤ) → List TimeSlot
  | currentStart, [] =>
      if currentStart < whEnd then [⟨currentStart, whEnd⟩] else []
  | currentStart, blocked :: rest =>
      let nextStart := if currentStart < blocked.2 then blocked.2 else currentStart
      gapBefore whEnd currentStart blocked ++ sweepFreeSlots whEnd nextStart rest

/-- Free slots of a day: subtract the blocked ranges overlapping the working
window from the window, then drop slots shorter than the minimum block size. -/
def findFreeSlots (day : ℤ) (blockedRanges : List (ℤ × ℤ))
    (config : SchedulerConfig) : List TimeSlot :=
  match getWorkingSlots day config with
  | none => []
  | some workingHours =>
      let dayBlockedRanges := blockedRanges.filter fun range =>
        doTimeRangesOverlap workingHours.start workingHours.«end» range.1 range.2
      let freeSlots := sweepFreeSlots workingHours.«end» workingHours.start dayBlockedRanges
      freeSlots.filter fun slot =>
        decide (config.minBlockMinutes ≤ differenceInMinutes slot.«end» slot.start)

/-! ## Priority model -/

/-- Priority score `(importance * 1.5 + difficulty * 1.0) / (max(slack, 0) + 1e-6)
* (1 / effortHours)`, computed as an exact fraction.  (The source calls
`new Date()` here; the engine's single `now` is threaded in instead.) -/
def calculatePriorityScore (task : Task) (now : ℤ) : Frac :=
  let minutesUntilDeadline := max 0 (differenceInMinutes task.deadline now)
  let estimatedMinutes := task.estimated_hours * 60
  let daysUntilDeadline : Frac := ⟨minutesUntilDeadline, 60 * 24⟩
  let estimatedDays : Frac := ⟨estimatedMinutes, 60 * 24⟩
  let slackDays := Frac.sub daysUntilDeadline estimatedDays
  let effectiveSlack := Frac.add (Frac.max slackDays ⟨0, 1⟩) ⟨1, 1000000⟩
  let weightedScore :=
    Frac.add (Frac.mul ⟨task.importance, 1⟩ ⟨15, 10⟩) (Frac.mul ⟨task.difficulty, 1⟩ ⟨1, 1⟩)
  let lengthFactor : Frac :=
    if 0 < task.estimated_hours then ⟨1, task.estimated_hours⟩ else ⟨1, 1⟩
  Frac.mul (Frac.div weightedScore effectiveSlack) lengthFactor

/-! ## Phase 1: task planning -/

structure TaskSchedulingContext where
  task : Task
  remainingMinutes : ℤ
  targetSessions : ℤ
  targetSpacingDays : ℤ
  lastSessionDate : Option ℤ
  scheduledSessions : ℤ
  priority : Frac
deriving Repr, DecidableEq

/-- `(targetSessions, targetSpacingDays, remainingMinutes)` for a task. -/
def calculateTaskSchedulingPlan (task : Task) (now : ℤ) : ℤ × ℤ × ℤ :=
  let totalMinutes := task.estimated_hours * 60
  let daysUntilDeadline := max 1 (differenceInDays task.deadline now)
  let avgSessionMinutes : ℤ := 60
  let targetSessions := ceilDiv totalMinutes avgSessionMinutes
  let targetSpacingDays :=
    if 1 < targetSessions then max 1 (Int.fdiv daysUntilDeadline targetSessions) else 0
  (targetSessions, targetSpacingDays, totalMinutes)

/-! ## Phase 2: slot inventory -/

structure DaySlotInventory where
  date : ℤ
  dayIndex : ℕ
  freeSlots : List TimeSlot
  totalAvailableMinutes : ℤ
  usedStudyMinutes : ℤ
  saturation : Frac
deriving Repr, DecidableEq

def buildDailySlotInventory (startDate : ℤ) (numDays : ℕ)
    (blockedRanges : List (ℤ × ℤ)) (config : SchedulerConfig) :
    List DaySlotInventory :=
  (List.range numDays).map fun (dayIndex : ℕ) =>
    let date := addDays (startOfDay startDate) (dayIndex : ℤ)
    let freeSlots := findFreeSlots date blockedRanges config
    let totalAvailableMinutes :=
      freeSlots.foldl (fun sum slot => sum + differenceInMinutes slot.«end» slot.start) 0
    { date := date
      dayIndex := dayIndex
      freeSlots := freeSlots
      totalAvailableMinutes := totalAvailableMinutes
      usedStudyMinutes := 0
      saturation := ⟨0, 1⟩ }

def getDayAvailableMinutes (dayInventory : DaySlotInventory) : ℤ :=
  max 0 (dayInventory.totalAvailableMinutes - dayInventory.usedStudyMinutes)

def updateDaySaturation (dayInventory : DaySlotInventory) : DaySlotInventory :=
  if dayInventory.totalAvailableMinutes = 0 then
    { dayInventory with saturation := ⟨1, 1⟩ }
  else
    { dayInventory with
        saturation := ⟨dayInventory.usedStudyMinutes, dayInventory.totalAvailableMinutes⟩ }

/-! ## Phase 3: round-robin core -/

/-- The hard constraints a day must pass in `findNextSuitableDay` (each `&&`
conjunct is the negation of one `continue` guard of the source, in order). -/
def suitableDayChecks (taskContext : TaskSchedulingContext)
    (dailyTaskUsage : ℕ → String → ℤ) (config : SchedulerConfig)
    (dayIndex : ℕ) (dayInventory : DaySlotInventory) : Bool :=
  !(decide (taskContext.task.deadline < dayInventory.date)) &&
  (match taskContext.lastSessionDate with
   | some lastDate =>
       decide (ROUND_ROBIN_CONFIG.MIN_SPACING_DAYS ≤
         differenceInDays dayInventory.date lastDate)
   | none => true) &&
  decide (config.minBlockMinutes ≤ getDayAvailableMinutes dayInventory) &&
  decide (dayInventory.usedStudyMinutes < ROUND_ROBIN_CONFIG.MAX_DAILY_TOTAL_STUDY) &&
  decide (dailyTaskUsage dayIndex taskContext.task.id < config.maxDailyMinutesPerTask)

/-- One pass of the day search from `dayIndex` upward (fuel bounds the walk;
it is always at least the number of remaining days).  With `checkSaturation`
set, only days under the saturation threshold are taken. -/
def findDayAux (taskContext : TaskSchedulingContext)
    (inventory : List DaySlotInventory) (dailyTaskUsage : ℕ → String → ℤ)
    (config : SchedulerConfig) (checkSaturation : Bool) :
    ℕ → ℕ → Option (ℕ × DaySlotInventory)
  | _, 0 => none
  | dayIndex, fuel + 1 =>
      match inventory[dayIndex]? with
      | none => none
      | some dayInventory =>
          if suitableDayChecks taskContext dailyTaskUsage config dayIndex dayInventory then
            if checkSaturation then
              if Frac.lt dayInventory.saturation ROUND_ROBIN_CONFIG.DAILY_SATURATION_THRESHOLD then
                some (dayIndex, dayInventory)
              else
                findDayAux taskContext inventory dailyTaskUsage config checkSaturation
                  (dayIndex + 1) fuel
            else some (dayIndex, dayInventory)
          else
            findDayAux taskContext inventory dailyTaskUsage config checkSaturation
              (dayIndex + 1) fuel

/-- `findNextSuitableDay`: first an ideal pass (saturation preference), then a
relaxed pass with the same hard constraints. -/
def findNextSuitableDay (taskContext : TaskSchedulingContext)
    (inventory : List DaySlotInventory) (dailyTaskUsage : ℕ → String → ℤ)
    (startDayIndex : ℕ) (config : SchedulerConfig) :
    Option (ℕ × DaySlotInventory) :=
  match findDayAux taskContext inventory dailyTaskUsage config true
      startDayIndex inventory.length with
  | some result => some result
  | none =>
      findDayAux taskContext inventory dailyTaskUsage config false
        startDayIndex inventory.length

/-- Session length for a chosen day: the minimum of the five budgets, snapped
down to a preferred duration when one fits, 0 when below the minimum. -/
def calculateOptimalSessionDuration (taskContext : TaskSchedulingContext)
    (dayInventory : DaySlotInventory) (dailyTaskUsage : ℕ → String → ℤ)
    (config : SchedulerConfig) : ℤ :=
  let taskMinutesUsed := dailyTaskUsage dayInventory.dayIndex taskContext.task.id
  let dailyAllowance := config.maxDailyMinutesPerTask - taskMinutesUsed
  let dayAvailable := getDayAvailableMinutes dayInventory
  let totalStudyAllowance :=
    ROUND_ROBIN_CONFIG.MAX_DAILY_TOTAL_STUDY - dayInventory.usedStudyMinutes
  let maxPossible :=
    min taskContext.remainingMinutes
      (min dailyAllowance (min dayAvailable (min totalStudyAllowance config.maxBlockMinutes)))
  if maxPossible < config.minBlockMinutes then 0
  else
    match ROUND_ROBIN_CONFIG.PREFERRED_SESSION_DURATIONS.find? fun preferred =>
        decide (preferred ≤ maxPossible) && decide (config.minBlockMinutes ≤ preferred) with
    | some preferredDuration => preferredDuration
    | none => if config.minBlockMinutes ≤ maxPossible then maxPossible else 0

/-- Scheduler working state: the source mutates the contexts array, the
inventory map, the created-blocks array, the usage map and two counters. -/
structure RRState where
  contexts : List TaskSchedulingContext
  inventory : List DaySlotInventory
  createdBlocks : List ScheduleBlock
  dailyTaskUsage : ℕ → String → ℤ
  currentDayIndex : ℕ
  roundsWithoutPlacement : ℕ

/-- `suitableSlot.start = nextStart` on the first slot large enough for the
session (the slot `find` located). -/
def shrinkFirstSuitableSlot (slots : List TimeSlot) (sessionDuration : ℤ)
    (nextStart : ℤ) : List TimeSlot :=
  match slots with
  | [] => []
  | slot :: rest =>
      if decide (sessionDuration ≤ differenceInMinutes slot.«end» slot.start) then
        { slot with start := nextStart } :: rest
      else
        slot :: shrinkFirstSuitableSlot rest sessionDuration nextStart

/-- The block emitted for a placement: starts at the found slot's start, ends
`sessionDuration` later.  (`crypto.randomUUID()` becomes a deterministic fresh
id; the engine never reads block ids.) -/
def newBlockFor (now : ℤ) (st : RRState) (taskContext : TaskSchedulingContext)
    (suitableSlot : TimeSlot) (sessionDuration : ℤ) : ScheduleBlock :=
  { id := "generated-" ++ toString st.createdBlocks.length
    user_id := taskContext.task.user_id
    task_id := taskContext.task.id
    title := taskContext.task.title
    start_at := suitableSlot.start
    end_at := addMinutes suitableSlot.start sessionDuration
    duration_minutes := sessionDuration
    is_locked := false
    color := some "#3b82f6"
    created_at := now
    updated_at := now }

/-- The state after one successful placement: push the block, debit the
context, advance the slot's start past the session plus break, credit the
day's and the task's usage counters. -/
def placedState (now : ℤ) (config : SchedulerConfig) (st : RRState) (i : ℕ)
    (taskContext : TaskSchedulingContext) (dayIndex : ℕ)
    (dayInventory : DaySlotInventory) (sessionDuration : ℤ)
    (suitableSlot : TimeSlot) : RRState :=
  { contexts := st.contexts.set i
      { taskContext with
          remainingMinutes := taskContext.remainingMinutes - sessionDuration
          scheduledSessions := taskContext.scheduledSessions + 1
          lastSessionDate := some dayInventory.date }
    inventory := st.inventory.set dayIndex
      (updateDaySaturation
        { dayInventory with
            freeSlots :=
              shrinkFirstSuitableSlot dayInventory.freeSlots sessionDuration
                (addMinutes (addMinutes suitableSlot.start sessionDuration)
                  config.breakBetweenBlocks)
            usedStudyMinutes := dayInventory.usedStudyMinutes + sessionDuration })
    createdBlocks := st.createdBlocks ++ [newBlockFor now st taskContext suitableSlot sessionDuration]
    dailyTaskUsage := fun d tid =>
      if d == dayIndex && tid == taskContext.task.id then
        st.dailyTaskUsage d tid + sessionDuration
      else st.dailyTaskUsage d tid
    currentDayIndex := st.currentDayIndex
    roundsWithoutPlacement := st.roundsWithoutPlacement }

/-- The body of the round-robin loop for the context at position `i`: try to
place one session for it, returning the updated state and whether a block was
placed. -/
def placeForTask (now : ℤ) (config : SchedulerConfig) (st : RRState) (i : ℕ) :
    RRState × Bool :=
  match st.contexts[i]? with
  | none => (st, false)
  | some taskContext =>
      if taskContext.remainingMinutes ≤ 0 then (st, false)
      else
        match findNextSuitableDay taskContext st.inventory st.dailyTaskUsage
            st.currentDayIndex config with
        | none => (st, false)
        | some (dayIndex, dayInventory) =>
            let sessionDuration :=
              calculateOptimalSessionDuration taskContext dayInventory
                st.dailyTaskUsage config
            if sessionDuration < config.minBlockMinutes then (st, false)
            else
              match dayInventory.freeSlots.find? fun slot =>
                  decide (sessionDuration ≤ differenceInMinutes slot.«end» slot.start) with
              | none => (st, false)
              | some suitableSlot =>
                  (placedState now config st i taskContext dayIndex dayInventory
                    sessionDuration suitableSlot, true)

/-- One round: iterate the contexts in (fixed) priority order, accumulating
whether any placement happened. -/
def roundAux (now : ℤ) (config : SchedulerConfig) :
    RRState → ℕ → ℕ → Bool → RRState × Bool
  | st, _, 0, placed => (st, placed)
  | st, i, remaining + 1, placed =>
      let r := placeForTask now config st i
      roundAux now config r.1 (i + 1) remaining (placed || r.2)

def allComplete (st : RRState) : Bool :=
  st.contexts.all fun taskContext => decide (taskContext.remainingMinutes ≤ 0)

/-- The bounded `while (maxRounds-- > 0)` loop with its stall counter, cursor
advance and early exits, exactly in the source's order. -/
def rrLoopAux (now : ℤ) (config : SchedulerConfig) : ℕ → RRState → RRState
  | 0, st => st
  | fuel + 1, st =>
      let r := roundAux now config st 0 st.contexts.length false
      let st' := r.1
      if r.2 then
        let st2 := { st' with roundsWithoutPlacement := 0 }
        if allComplete st2 then st2 else rrLoopAux now config fuel st2
      else
        let st2 :=
          { st' with
              roundsWithoutPlacement := st'.roundsWithoutPlacement + 1
              currentDayIndex := st'.currentDayIndex + 1 }
        if 10 < st2.roundsWithoutPlacement ∨ st2.inventory.length ≤ st2.currentDayIndex then st2
        else if allComplete st2 then st2 else rrLoopAux now config fuel st2

/-- The context built for one task at the start of scheduling. -/
def mkTaskContext (task : Task) (now : ℤ) : TaskSchedulingContext :=
  let plan := calculateTaskSchedulingPlan task now
  { task := task
    remainingMinutes := plan.2.2
    targetSessions := plan.1
    targetSpacingDays := plan.2.1
    lastSessionDate := none
    scheduledSessions := 0
    priority := calculatePriorityScore task now }

/-- The one-time stable sort of the contexts, descending priority
(the source's `.sort((a, b) => b.priority - a.priority)`). -/
def sortTaskContexts (contexts : List TaskSchedulingContext) :
    List TaskSchedulingContext :=
  contexts.insertionSort fun a b => Frac.le b.priority a.priority = true

/-- The scheduler state at the start of the round-robin loop. -/
def initialRRState (taskContexts : List TaskSchedulingContext)
    (inventory : List DaySlotInventory) : RRState :=
  { contexts := taskContexts
    inventory := inventory
    createdBlocks := []
    dailyTaskUsage := fun _ _ => 0
    currentDayIndex := 0
    roundsWithoutPlacement := 0 }

/-- The scheduler state after the loop (at most 200 rounds). -/
def finalRRState (tasks : List Task) (inventory : List DaySlotInventory)
    (now : ℤ) (config : SchedulerConfig) : RRState :=
  rrLoopAux now config 200
    (initialRRState (sortTaskContexts (tasks.map fun task => mkTaskContext task now))
      inventory)

/-- Build the contexts (sorted once, descending priority, stable), run the
round-robin loop for at most 200 rounds, and return the final contexts and the
created blocks. -/
def scheduleTasksRoundRobin (tasks : List Task) (inventory : List DaySlotInventory)
    (now : ℤ) (config : SchedulerConfig) :
    List TaskSchedulingContext × List ScheduleBlock :=
  let finalState := finalRRState tasks inventory now config
  (finalState.contexts, finalState.createdBlocks)

/-! ## Main entry point -/

/-- The eligibility filter of `generateScheduleBlocks`: tasks with remaining
hours to schedule and a future deadline. -/
def eligibleTasksOf (tasks : List Task) (now : ℤ) : List Task :=
  tasks.filter fun task =>
    decide (now < task.deadline) && decide (0 < task.estimated_hours)

/-- The furthest deadline among the tasks to schedule (at least `now`). -/
def furthestDeadlineOf (tasksToSchedule : List Task) (now : ℤ) : ℤ :=
  (tasksToSchedule.map fun task => task.deadline).foldl
    (fun maxSoFar d => if maxSoFar < d then d else maxSoFar) now

/-- The adaptive horizon: between 30 and 120 days, covering the furthest
deadline plus one day. -/
def horizonDaysOf (tasksToSchedule : List Task) (now : ℤ) : ℤ :=
  min 120 (max 30 (differenceInDays (furthestDeadlineOf tasksToSchedule now) now + 1))

/-- The warnings generated from the final contexts: one per task with
unscheduled remainder. -/
def warningsOf (contexts : List TaskSchedulingContext) : List SchedulerWarning :=
  contexts.filterMap fun taskContext =>
    if 0 < taskContext.remainingMinutes then
      some { taskId := taskContext.task.id
             taskTitle := taskContext.task.title
             message := "Impossible de planifier avant la date limite"
             unscheduledHours := (⟨taskContext.remainingMinutes, 60⟩ : Frac) }
    else none

/-- `generateScheduleBlocks`.  The source reads `new Date()` once; here `now`
is an explicit parameter.  The config parameter is explicit (the source
defaults it to `DEFAULT_SCHEDULER_CONFIG`). -/
def generateScheduleBlocks (tasks : List Task) (fixedEvents : List FixedEvent)
    (lockedBlocks : List ScheduleBlock) (config : SchedulerConfig) (now : ℤ) :
    SchedulerResult :=
  let tasksToSchedule := eligibleTasksOf tasks now
  if tasksToSchedule.isEmpty then
    { success := true, createdBlocks := [], warnings := [] }
  else
    let blockedRanges := getBlockedRanges fixedEvents lockedBlocks
    let inventory :=
      buildDailySlotInventory (startOfDay now) (horizonDaysOf tasksToSchedule now).toNat
        blockedRanges config
    let scheduled := scheduleTasksRoundRobin tasksToSchedule inventory now config
    let warnings := warningsOf scheduled.1
    { success := warnings.isEmpty
      createdBlocks := scheduled.2
      warnings := warnings }

/-! ## Collision detection for drag and drop -/

structure CollisionResult where
  hasCollision : Bool
  type : Option String
  message : Option String
deriving Repr, DecidableEq

/-- `checkCollision`: first conflicting fixed event wins, then first
conflicting locked block (skipping `excludeBlockId`). -/
def checkCollision (newStart newEnd : ℤ) (fixedEvents : List FixedEvent)
    (lockedBlocks : List ScheduleBlock) (excludeBlockId : Option String) :
    CollisionResult :=
  match fixedEvents.find? fun event =>
      doTimeRangesOverlap newStart newEnd event.start_at event.end_at with
  | some event =>
      { hasCollision := true
        type := some "fixed_event"
        message := some ("Conflit avec evenement fixe " ++ event.title) }
  | none =>
      match lockedBlocks.find? fun block =>
          !(excludeBlockId == some block.id) &&
            doTimeRangesOverlap newStart newEnd block.start_at block.end_at with
      | some block =>
          { hasCollision := true
            type := some "locked_block"
            message := some ("Conflit avec bloc verrouille " ++ block.title) }
      | none => { hasCollision := false, type := none, message := none }

/-! ## Vocabulary for the statements -/

/-- Total `duration_minutes` of a list of blocks. -/
def blockMinutes (blocks : List ScheduleBlock) : ℤ :=
  (blocks.map fun block => block.duration_minutes).sum

/-- Wellformedness of a scheduler config: positive minimum session length,
nonnegative break and per-task daily cap, and each configured window inside
its day (hours between 0 and 24).  The spec calls configs outside this
envelope malformed (programmer error). -/
def ConfigWF (config : SchedulerConfig) : Prop :=
  0 < config.minBlockMinutes ∧ 0 ≤ config.breakBetweenBlocks ∧
  0 ≤ config.maxDailyMinutesPerTask ∧
  ∀ p ∈ config.dailyWorkHours, 0 ≤ p.2.start ∧ p.2.«end» ≤ 24

/-- Fixed events carry a nonempty interval (`end > start` is enforced at
creation; `≤` is all the proofs need). -/
def EventsWF (fixedEvents : List FixedEvent) : Prop :=
  ∀ e ∈ fixedEvents, e.start_at ≤ e.end_at

/-- Locked blocks carry a nonempty interval. -/
def BlocksWF (lockedBlocks : List ScheduleBlock) : Prop :=
  ∀ b ∈ lockedBlocks, b.start_at ≤ b.end_at

instance (config : SchedulerConfig) : Decidable (ConfigWF config) :=
  inferInstanceAs (Decidable (_ ∧ _ ∧ _ ∧ ∀ p ∈ config.dailyWorkHours, _ ∧ _))

instance (fixedEvents : List FixedEvent) : Decidable (EventsWF fixedEvents) :=
  inferInstanceAs (Decidable (∀ e ∈ fixedEvents, e.start_at ≤ e.end_at))

instance (lockedBlocks : List ScheduleBlock) : Decidable (BlocksWF lockedBlocks) :=
  inferInstanceAs (Decidable (∀ b ∈ lockedBlocks, b.start_at ≤ b.end_at))

/-- The eligibility test of `generateScheduleBlocks`. -/
def eligibleTask (now : ℤ) (task : Task) : Prop :=
  now < task.deadline ∧ 0 < task.estimated_hours

instance (now : ℤ) (task : Task) : Decidable (eligibleTask now task) :=
  inferInstanceAs (Decidable (_ ∧ _))

/-! ## Concrete fixtures used to exercise the engine -/

def sampleTask (id : String) (deadline estimated_hours : ℤ) : Task :=
  { id := id
    user_id := "user-1"
    title := id
    deadline := deadline
    estimated_hours := estimated_hours
    difficulty := 3
    importance := 3
    created_at := 0 }

def sampleFixedEvent (start_at end_at : ℤ) : FixedEvent :=
  { id := "event-1"
    user_id := "user-1"
    title := "event"
    start_at := start_at
    end_at := end_at
    description := none
    color := none
    created_at := 0
    updated_at := 0 }

def sampleLockedBlock (id task_id : String) (start_at end_at : ℤ) : ScheduleBlock :=
  { id := id
    user_id := "user-1"
    task_id := task_id
    title := task_id
    start_at := start_at
    end_at := end_at
    duration_minutes := end_at - start_at
    is_locked := true
    color := none
    created_at := 0
    updated_at := 0 }

/-- A config whose weekly work-hour table is empty: every day is excluded. -/
def configNoWorkHours : SchedulerConfig :=
  { dailyWorkHours := []
    minBlockMinutes := 30
    maxBlockMinutes := 120
    breakBetweenBlocks := 15
    maxDailyMinutesPerTask := 120 }

/-- A malformed config: minimum session length above the maximum. -/
def configMinOverMax : SchedulerConfig :=
  { dailyWorkHours := DEFAULT_SCHEDULER_CONFIG.dailyWorkHours
    minBlockMinutes := 100
    maxBlockMinutes := 50
    breakBetweenBlocks := 15
    maxDailyMinutesPerTask := 120 }

/-- The scheduler state `generateScheduleBlocks` ends with (meaningful when the
eligible-task list is nonempty). -/
def engineFinalState (tasks : List Task) (fixedEvents : List FixedEvent)
    (lockedBlocks : List ScheduleBlock) (config : SchedulerConfig) (now : ℤ) :
    RRState :=
  finalRRState (eligibleTasksOf tasks now)
    (buildDailySlotInventory (startOfDay now)
      (horizonDaysOf (eligibleTasksOf tasks now) now).toNat
      (getBlockedRanges fixedEvents lockedBlocks) config)
    now config

/-- The tasks behind the sorted contexts of a run, in context order (a
permutation of the eligible tasks). -/
def scheduledTasksOf (tasks : List Task) (now : ℤ) : List Task :=
  (sortTaskContexts ((eligibleTasksOf tasks now).map fun task =>
    mkTaskContext task now)).map fun c => c.task

/-- The loop invariant of the round-robin scheduler.  Parameters: the config,
the first day boundary `base` (`startOfDay now`, a multiple of 1440), the
blocked ranges `walls` the inventory was built from, and the fixed multiset of
tasks `tasks0` behind the contexts. -/
structure Inv (config : SchedulerConfig) (base : ℤ) (walls : List (ℤ × ℤ))
    (tasks0 : List Task) (st : RRState) : Prop where
  /-- The contexts carry exactly the tasks they were built from. -/
  ctx_tasks : st.contexts.map (fun c => c.task) = tasks0
  /-- Each inventory entry records its own position. -/
  inv_dayIndex : ∀ i (h : i < st.inventory.length), (st.inventory.get ⟨i, h⟩).dayIndex = i
  /-- Day `i` starts at `base + 1440 * i`. -/
  inv_date : ∀ i (h : i < st.inventory.length),
    (st.inventory.get ⟨i, h⟩).date = base + 1440 * (i : ℤ)
  /-- Every slot sits inside its day's working window (the window exists). -/
  slot_window : ∀ d ∈ st.inventory, ∀ s ∈ d.freeSlots, ∃ wh,
    getWorkingSlots d.date config = some wh ∧ wh.start ≤ s.start ∧ s.«end» ≤ wh.«end»
  /-- Every slot is disjoint from every wall. -/
  slot_walls : ∀ d ∈ st.inventory, ∀ s ∈ d.freeSlots, ∀ r ∈ walls,
    r.2 ≤ s.start ∨ s.«end» ≤ r.1
  /-- Slots of one day are mutually disjoint. -/
  slot_pairwise : ∀ d ∈ st.inventory,
    d.freeSlots.Pairwise fun s1 s2 => s1.«end» ≤ s2.start ∨ s2.«end» ≤ s1.start
  /-- Created blocks are disjoint from every wall. -/
  block_walls : ∀ b ∈ st.createdBlocks, ∀ r ∈ walls,
    r.2 ≤ b.start_at ∨ b.end_at ≤ r.1
  /-- Created blocks are mutually disjoint. -/
  block_pairwise : st.createdBlocks.Pairwise fun b1 b2 =>
    b1.end_at ≤ b2.start_at ∨ b2.end_at ≤ b1.start_at
  /-- Created blocks are disjoint from every remaining free slot. -/
  block_slots : ∀ b ∈ st.createdBlocks, ∀ d ∈ st.inventory, ∀ s ∈ d.freeSlots,
    s.«end» ≤ b.start_at ∨ b.end_at ≤ s.start
  /-- A block's end is start plus duration, and its duration is at least the
  minimum session length. -/
  block_shape : ∀ b ∈ st.createdBlocks,
    b.end_at = b.start_at + b.duration_minutes ∧
    config.minBlockMinutes ≤ b.duration_minutes
  /-- Every block sits inside the configured window of its own calendar day. -/
  block_window : ∀ b ∈ st.createdBlocks, ∃ dh,
    config.dailyWorkHours.lookup (getDay b.start_at) = some dh ∧
    startOfDay b.start_at + 60 * dh.start ≤ b.start_at ∧
    b.end_at ≤ startOfDay b.start_at + 60 * dh.«end»
  /-- Every block lies on one of the horizon's days. -/
  block_day : ∀ b ∈ st.createdBlocks, ∃ i, i < st.inventory.length ∧
    startOfDay b.start_at = base + 1440 * (i : ℤ) ∧
    b.end_at ≤ startOfDay b.start_at + 1440
  /-- Blocks were placed on days starting on or before their task's deadline. -/
  block_deadline : ∀ b ∈ st.createdBlocks, ∀ t ∈ tasks0,
    t.id = b.task_id → startOfDay b.start_at ≤ t.deadline
  /-- Every block belongs to one of the scheduled tasks. -/
  block_ctx : ∀ b ∈ st.createdBlocks, ∃ t ∈ tasks0, b.task_id = t.id
  /-- A context's remaining minutes are its effort minus what was created for
  its task, and never negative. -/
  remaining_eq : ∀ c ∈ st.contexts,
    c.remainingMinutes = c.task.estimated_hours * 60 -
      blockMinutes (st.createdBlocks.filter fun b => b.task_id == c.task.id) ∧
    0 ≤ c.remainingMinutes
  /-- A day's used-minutes counter totals the blocks created on it, and stays
  under the global daily cap. -/
  used_eq : ∀ i (h : i < st.inventory.length),
    (st.inventory.get ⟨i, h⟩).usedStudyMinutes =
      blockMinutes (st.createdBlocks.filter fun b =>
        startOfDay b.start_at == base + 1440 * (i : ℤ)) ∧
    (st.inventory.get ⟨i, h⟩).usedStudyMinutes ≤ ROUND_ROBIN_CONFIG.MAX_DAILY_TOTAL_STUDY
  /-- The per-(day, task) usage map totals the matching blocks, and stays under
  the per-task daily cap. -/
  usage_eq : ∀ (i : ℕ) (tid : String),
    st.dailyTaskUsage i tid =
      blockMinutes (st.createdBlocks.filter fun b =>
        b.task_id == tid && (startOfDay b.start_at == base + 1440 * (i : ℤ))) ∧
    st.dailyTaskUsage i tid ≤ config.maxDailyMinutesPerTask

/-! ## Basic lemmas: time arithmetic -/

theorem startOfDay_le (t : ℤ) : startOfDay t ≤ t := by
  unfold startOfDay
  rw [Int.fdiv_eq_ediv t (by norm_num)]
  omega

theorem lt_startOfDay_add (t : ℤ) : t < startOfDay t + 1440 := by
  unfold startOfDay
  rw [Int.fdiv_eq_ediv t (by norm_num)]
  omega

theorem startOfDay_dvd (t : ℤ) : (1440 : ℤ) ∣ startOfDay t := ⟨_, rfl⟩

theorem startOfDay_eq_of {D t : ℤ} (hD : (1440 : ℤ) ∣ D) (h1 : D ≤ t)
    (h2 : t < D + 1440) : startOfDay t = D := by
  obtain ⟨k, rfl⟩ := hD
  unfold startOfDay
  rw [Int.fdiv_eq_ediv t (by norm_num)]
  omega

theorem startOfDay_of_dvd {D : ℤ} (hD : (1440 : ℤ) ∣ D) : startOfDay D = D :=
  startOfDay_eq_of hD le_rfl (by omega)

theorem getDay_eq_of_startOfDay {t D : ℤ} (h : startOfDay t = D) :
    getDay t = getDay D := by
  unfold startOfDay at h
  unfold getDay
  rw [Int.fdiv_eq_ediv t (by norm_num)] at h ⊢
  rw [Int.fdiv_eq_ediv D (by norm_num)]
  omega

/-! ## Basic lemmas: association-list lookup -/

theorem lookup_mem {α β : Type} [DecidableEq α] {l : List (α × β)} {k : α} {v : β}
    (h : l.lookup k = some v) : (k, v) ∈ l := by
  induction l with
  | nil => simp [List.lookup] at h
  | cons p t ih =>
      cases p with
      | mk a b =>
          rw [List.lookup] at h
          by_cases hk : k = a
          · subst hk
            simp at h
            subst h
            exact List.mem_cons_self _ _
          · have hkb : (k == a) = false := beq_false_of_ne hk
            rw [hkb] at h
            exact List.mem_cons_of_mem _ (ih h)

/-! ## Lemmas on the free-slot sweep -/

theorem gapBefore_mem {whEnd cur : ℤ} {r : ℤ × ℤ} {s : TimeSlot}
    (hs : s ∈ gapBefore whEnd cur r) :
    s.start = cur ∧ cur < s.«end» ∧ s.«end» ≤ whEnd ∧ s.«end» ≤ r.1 := by
  unfold gapBefore at hs
  by_cases h1 : cur < r.1
  · rw [if_pos h1] at hs
    dsimp only at hs
    by_cases h2 : r.1 < whEnd
    · rw [if_pos h2, if_pos h1] at hs
      rw [List.mem_singleton] at hs
      subst hs
      exact ⟨rfl, h1, le_of_lt h2, le_rfl⟩
    · rw [if_neg h2] at hs
      by_cases h3 : cur < whEnd
      · rw [if_pos h3] at hs
        rw [List.mem_singleton] at hs
        subst hs
        refine ⟨rfl, h3, le_rfl, ?_⟩
        show whEnd ≤ r.1
        omega
      · rw [if_neg h3] at hs
        simp at hs
  · rw [if_neg h1] at hs
    simp at hs

theorem gapBefore_pairwise {whEnd cur : ℤ} {r : ℤ × ℤ}
    {R : TimeSlot → TimeSlot → Prop} : (gapBefore whEnd cur r).Pairwise R := by
  unfold gapBefore
  by_cases h1 : cur < r.1
  · rw [if_pos h1]
    dsimp only
    by_cases h2 : cur < (if r.1 < whEnd then r.1 else whEnd)
    · rw [if_pos h2]
      exact List.pairwise_singleton _ _
    · rw [if_neg h2]
      exact List.Pairwise.nil
  · rw [if_neg h1]
    exact List.Pairwise.nil

theorem sweepFreeSlots_mem_bounds {whEnd : ℤ} :
    ∀ {rs : List (ℤ × ℤ)} {cur : ℤ} {s : TimeSlot},
      s ∈ sweepFreeSlots whEnd cur rs →
      cur ≤ s.start ∧ s.start < s.«end» ∧ s.«end» ≤ whEnd := by
  intro rs
  induction rs with
  | nil =>
      intro cur s hs
      unfold sweepFreeSlots at hs
      split at hs
      · rw [List.mem_singleton] at hs
        subst hs
        dsimp only
        omega
      · simp at hs
  | cons r rest ih =>
      intro cur s hs
      unfold sweepFreeSlots at hs
      rw [List.mem_append] at hs
      rcases hs with hs | hs
      · obtain ⟨h1, h2, h3, _⟩ := gapBefore_mem hs
        omega
      · have := ih hs
        refine ⟨le_trans ?_ this.1, this.2⟩
        split <;> omega

theorem sweepFreeSlots_disjoint {whEnd : ℤ} :
    ∀ {rs : List (ℤ × ℤ)} {cur : ℤ},
      rs.Pairwise (fun a b => a.1 ≤ b.1) →
      ∀ s ∈ sweepFreeSlots whEnd cur rs, ∀ r ∈ rs,
        r.2 ≤ s.start ∨ s.«end» ≤ r.1 := by
  intro rs
  induction rs with
  | nil => intro cur _ s _ r hr; simp at hr
  | cons r0 rest ih =>
      intro cur hsort s hs r hr
      rw [List.pairwise_cons] at hsort
      unfold sweepFreeSlots at hs
      rw [List.mem_append] at hs
      rcases hs with hs | hs
      · -- s is the gap emitted before r0
        have hse : s.«end» ≤ r0.1 := (gapBefore_mem hs).2.2.2
        rcases List.mem_cons.mp hr with rfl | hr
        · exact Or.inr hse
        · exact Or.inr (le_trans hse (hsort.1 r hr))
      · -- s comes from the recursive sweep past r0
        rcases List.mem_cons.mp hr with rfl | hr
        · left
          have hb := sweepFreeSlots_mem_bounds hs
          refine le_trans ?_ hb.1
          split <;> omega
        · exact ih hsort.2 s hs r hr

theorem sweepFreeSlots_pairwise {whEnd : ℤ} :
    ∀ {rs : List (ℤ × ℤ)} {cur : ℤ}, (∀ r ∈ rs, r.1 ≤ r.2) →
      (sweepFreeSlots whEnd cur rs).Pairwise fun s1 s2 => s1.«end» ≤ s2.start := by
  intro rs
  induction rs with
  | nil =>
      intro cur _
      unfold sweepFreeSlots
      split <;> simp
  | cons r0 rest ih =>
      intro cur hwf
      unfold sweepFreeSlots
      rw [List.pairwise_append]
      refine ⟨gapBefore_pairwise, ih fun r hr => hwf r (List.mem_cons_of_mem _ hr), ?_⟩
      · intro s1 h1 s2 h2
        have h0 : r0.1 ≤ r0.2 := hwf r0 (List.mem_cons_self _ _)
        have hse : s1.«end» ≤ r0.1 := (gapBefore_mem h1).2.2.2
        have hb := sweepFreeSlots_mem_bounds h2
        refine le_trans hse (le_trans h0 (le_trans ?_ hb.1))
        split <;> omega

/-! ## Lemmas on findFreeSlots -/

theorem findFreeSlots_mem {day : ℤ} {blocked : List (ℤ × ℤ)}
    {config : SchedulerConfig} {s : TimeSlot}
    (h : s ∈ findFreeSlots day blocked config) :
    ∃ wh, getWorkingSlots day config = some wh ∧
      wh.start ≤ s.start ∧ s.start < s.«end» ∧ s.«end» ≤ wh.«end» ∧
      config.minBlockMinutes ≤ s.«end» - s.start := by
  unfold findFreeSlots at h
  cases hw : getWorkingSlots day config with
  | none => rw [hw] at h; simp at h
  | some wh =>
      rw [hw] at h
      simp only at h
      have hmem := List.mem_filter.mp h
      have hb := sweepFreeSlots_mem_bounds hmem.1
      refine ⟨wh, rfl, hb.1, hb.2.1, hb.2.2, ?_⟩
      have := hmem.2
      simpa [differenceInMinutes] using this

theorem findFreeSlots_disjoint {day : ℤ} {blocked : List (ℤ × ℤ)}
    {config : SchedulerConfig}
    (hsort : blocked.Pairwise fun a b => a.1 ≤ b.1)
    (hwf : ∀ r ∈ blocked, r.1 ≤ r.2) :
    ∀ s ∈ findFreeSlots day blocked config, ∀ r ∈ blocked,
      r.2 ≤ s.start ∨ s.«end» ≤ r.1 := by
  intro s hs r hr
  obtain ⟨wh, hw, hs1, hs2, hs3, _⟩ := findFreeSlots_mem hs
  unfold findFreeSlots at hs
  rw [hw] at hs
  simp only at hs
  have hmem := (List.mem_filter.mp hs).1
  by_cases hov : doTimeRangesOverlap wh.start wh.«end» r.1 r.2 = true
  · -- r was among the subtracted ranges: the sweep separated s from it
    have hrmem : r ∈ blocked.filter fun range =>
        doTimeRangesOverlap wh.start wh.«end» range.1 range.2 :=
      List.mem_filter.mpr ⟨hr, hov⟩
    exact sweepFreeSlots_disjoint (hsort.filter _) s hmem r hrmem
  · -- r does not even touch the working window containing s
    have hr12 := hwf r hr
    simp only [doTimeRangesOverlap, areIntervalsOverlapping, Bool.and_eq_true,
      decide_eq_true_eq, not_and, not_lt] at hov
    rcases lt_or_le (min wh.start wh.«end») (max r.1 r.2) with hlt | hle
    · have := hov hlt
      right
      calc s.«end» ≤ wh.«end» := hs3
        _ ≤ max wh.start wh.«end» := le_max_right _ _
        _ ≤ min r.1 r.2 := this
        _ ≤ r.1 := min_le_left _ _
    · left
      calc r.2 ≤ max r.1 r.2 := le_max_right _ _
        _ ≤ min wh.start wh.«end» := hle
        _ ≤ wh.start := min_le_left _ _
        _ ≤ s.start := hs1

theorem findFreeSlots_pairwise {day : ℤ} {blocked : List (ℤ × ℤ)}
    {config : SchedulerConfig} (hwf : ∀ r ∈ blocked, r.1 ≤ r.2) :
    (findFreeSlots day blocked config).Pairwise fun s1 s2 =>
      s1.«end» ≤ s2.start := by
  unfold findFreeSlots
  cases hw : getWorkingSlots day config with
  | none => simp
  | some wh =>
      simp only
      refine List.Pairwise.filter _ ?_
      exact sweepFreeSlots_pairwise fun r hr =>
        hwf r (List.mem_filter.mp hr).1

/-! ## Lemmas on getBlockedRanges -/

theorem getBlockedRanges_sorted (fixedEvents : List FixedEvent)
    (lockedBlocks : List ScheduleBlock) :
    (getBlockedRanges fixedEvents lockedBlocks).Pairwise fun a b => a.1 ≤ b.1 := by
  unfold getBlockedRanges
  haveI : IsTotal (ℤ × ℤ) (fun a b : ℤ × ℤ => a.1 ≤ b.1) :=
    ⟨fun a b => le_total a.1 b.1⟩
  haveI : IsTrans (ℤ × ℤ) (fun a b : ℤ × ℤ => a.1 ≤ b.1) :=
    ⟨fun _ _ _ hab hbc => le_trans hab hbc⟩
  exact List.sorted_insertionSort _ _

theorem mem_getBlockedRanges {fixedEvents : List FixedEvent}
    {lockedBlocks : List ScheduleBlock} {r : ℤ × ℤ} :
    r ∈ getBlockedRanges fixedEvents lockedBlocks ↔
      r ∈ (fixedEvents.map fun event => (event.start_at, event.end_at)) ++
        (lockedBlocks.map fun block => (block.start_at, block.end_at)) :=
  (List.perm_insertionSort _ _).mem_iff

theorem getBlockedRanges_wf {fixedEvents : List FixedEvent}
    {lockedBlocks : List ScheduleBlock} (hev : EventsWF fixedEvents)
    (hbl : BlocksWF lockedBlocks) :
    ∀ r ∈ getBlockedRanges fixedEvents lockedBlocks, r.1 ≤ r.2 := by
  intro r hr
  rw [mem_getBlockedRanges, List.mem_append] at hr
  rcases hr with hr | hr
  · obtain ⟨e, he, rfl⟩ := List.mem_map.mp hr
    exact hev e he
  · obtain ⟨b, hb, rfl⟩ := List.mem_map.mp hr
    exact hbl b hb

/-! ## blockMinutes lemmas -/

theorem blockMinutes_nil : blockMinutes [] = 0 := rfl

theorem blockMinutes_append (l1 l2 : List ScheduleBlock) :
    blockMinutes (l1 ++ l2) = blockMinutes l1 + blockMinutes l2 := by
  simp [blockMinutes]

/-! ## Lemmas on working windows and the inventory -/

theorem getWorkingSlots_eq_some {day : ℤ} {config : SchedulerConfig} {wh : TimeSlot}
    (h : getWorkingSlots day config = some wh) :
    ∃ dh, config.dailyWorkHours.lookup (getDay day) = some dh ∧
      wh.start = startOfDay day + 60 * dh.start ∧
      wh.«end» = startOfDay day + 60 * dh.«end» := by
  unfold getWorkingSlots at h
  cases hl : config.dailyWorkHours.lookup (getDay day) with
  | none => rw [hl] at h; exact absurd h (by simp)
  | some dh =>
      rw [hl] at h
      simp only [Option.some.injEq] at h
      subst h
      exact ⟨dh, rfl, rfl, rfl⟩

theorem getWorkingSlots_in_day {day : ℤ} {config : SchedulerConfig} {wh : TimeSlot}
    (hcfg : ConfigWF config) (h : getWorkingSlots day config = some wh) :
    startOfDay day ≤ wh.start ∧ wh.«end» ≤ startOfDay day + 1440 := by
  obtain ⟨dh, hl, h1, h2⟩ := getWorkingSlots_eq_some h
  have hb := hcfg.2.2.2 _ (lookup_mem hl)
  dsimp only at hb
  constructor
  · rw [h1]; omega
  · rw [h2]; omega

theorem buildDailySlotInventory_length (startDate : ℤ) (numDays : ℕ)
    (blocked : List (ℤ × ℤ)) (config : SchedulerConfig) :
    (buildDailySlotInventory startDate numDays blocked config).length = numDays := by
  simp [buildDailySlotInventory]

theorem buildDailySlotInventory_get {startDate : ℤ} {numDays : ℕ}
    {blocked : List (ℤ × ℤ)} {config : SchedulerConfig} {i : ℕ}
    (h : i < (buildDailySlotInventory startDate numDays blocked config).length) :
    (buildDailySlotInventory startDate numDays blocked config).get ⟨i, h⟩ =
      { date := addDays (startOfDay startDate) (i : ℤ)
        dayIndex := i
        freeSlots := findFreeSlots (addDays (startOfDay startDate) (i : ℤ)) blocked config
        totalAvailableMinutes :=
          (findFreeSlots (addDays (startOfDay startDate) (i : ℤ)) blocked config).foldl
            (fun sum slot => sum + differenceInMinutes slot.«end» slot.start) 0
        usedStudyMinutes := 0
        saturation := ⟨0, 1⟩ } := by
  simp [buildDailySlotInventory, List.get_eq_getElem]

theorem buildDailySlotInventory_mem {startDate : ℤ} {numDays : ℕ}
    {blocked : List (ℤ × ℤ)} {config : SchedulerConfig} {d : DaySlotInventory}
    (h : d ∈ buildDailySlotInventory startDate numDays blocked config) :
    ∃ i : ℕ, i < numDays ∧
      d = { date := addDays (startOfDay startDate) (i : ℤ)
            dayIndex := i
            freeSlots := findFreeSlots (addDays (startOfDay startDate) (i : ℤ)) blocked config
            totalAvailableMinutes :=
              (findFreeSlots (addDays (startOfDay startDate) (i : ℤ)) blocked config).foldl
                (fun sum slot => sum + differenceInMinutes slot.«end» slot.start) 0
            usedStudyMinutes := 0
            saturation := ⟨0, 1⟩ } := by
  unfold buildDailySlotInventory at h
  obtain ⟨i, hi, rfl⟩ := List.mem_map.mp h
  exact ⟨i, List.mem_range.mp hi, rfl⟩

/-! ## Extraction lemmas for the round-robin step -/

theorem suitableDayChecks_true {taskContext : TaskSchedulingContext}
    {usage : ℕ → String → ℤ} {config : SchedulerConfig} {dayIndex : ℕ}
    {d : DaySlotInventory}
    (h : suitableDayChecks taskContext usage config dayIndex d = true) :
    d.date ≤ taskContext.task.deadline ∧
    config.minBlockMinutes ≤ getDayAvailableMinutes d ∧
    d.usedStudyMinutes < ROUND_ROBIN_CONFIG.MAX_DAILY_TOTAL_STUDY ∧
    usage dayIndex taskContext.task.id < config.maxDailyMinutesPerTask := by
  unfold suitableDayChecks at h
  cases htc : taskContext.lastSessionDate with
  | none =>
      rw [htc] at h
      simp only [Bool.and_eq_true, Bool.not_eq_eq_eq_not, Bool.not_true,
        decide_eq_false_iff_not, decide_eq_true_eq, not_lt] at h
      refine ⟨?_, ?_, ?_, ?_⟩ <;> tauto
  | some lastDate =>
      rw [htc] at h
      simp only [Bool.and_eq_true, Bool.not_eq_eq_eq_not, Bool.not_true,
        decide_eq_false_iff_not, decide_eq_true_eq, not_lt] at h
      refine ⟨?_, ?_, ?_, ?_⟩ <;> tauto

theorem findDayAux_some {taskContext : TaskSchedulingContext}
    {inventory : List DaySlotInventory} {usage : ℕ → String → ℤ}
    {config : SchedulerConfig} {checkSaturation : Bool} :
    ∀ {fuel start : ℕ} {j : ℕ} {d : DaySlotInventory},
      findDayAux taskContext inventory usage config checkSaturation start fuel =
        some (j, d) →
      inventory[j]? = some d ∧ suitableDayChecks taskContext usage config j d = true := by
  intro fuel
  induction fuel with
  | zero => intro start j d h; exact Option.noConfusion h
  | succ fuel ih =>
      intro start j d h
      unfold findDayAux at h
      cases hg : inventory[start]? with
      | none => rw [hg] at h; exact Option.noConfusion h
      | some d0 =>
          rw [hg] at h
          simp only at h
          by_cases hc : suitableDayChecks taskContext usage config start d0 = true
          · rw [if_pos hc] at h
            cases checkSaturation with
            | true =>
                rw [if_pos rfl] at h
                by_cases hsat : Frac.lt d0.saturation
                    ROUND_ROBIN_CONFIG.DAILY_SATURATION_THRESHOLD = true
                · rw [if_pos hsat] at h
                  simp only [Option.some.injEq, Prod.mk.injEq] at h
                  obtain ⟨rfl, rfl⟩ := h
                  exact ⟨hg, hc⟩
                · rw [if_neg hsat] at h
                  exact ih h
            | false =>
                rw [if_neg Bool.false_ne_true] at h
                simp only [Option.some.injEq, Prod.mk.injEq] at h
                obtain ⟨rfl, rfl⟩ := h
                exact ⟨hg, hc⟩
          · rw [if_neg hc] at h
            exact ih h

theorem findNextSuitableDay_some {taskContext : TaskSchedulingContext}
    {inventory : List DaySlotInventory} {usage : ℕ → String → ℤ}
    {startDayIndex : ℕ} {config : SchedulerConfig} {j : ℕ} {d : DaySlotInventory}
    (h : findNextSuitableDay taskContext inventory usage startDayIndex config =
      some (j, d)) :
    inventory[j]? = some d ∧ suitableDayChecks taskContext usage config j d = true := by
  unfold findNextSuitableDay at h
  cases h1 : findDayAux taskContext inventory usage config true startDayIndex
      inventory.length with
  | none => rw [h1] at h; exact findDayAux_some h
  | some r =>
      rw [h1] at h
      simp only [Option.some.injEq] at h
      subst h
      exact findDayAux_some h1

theorem calculateOptimalSessionDuration_spec (taskContext : TaskSchedulingContext)
    (d : DaySlotInventory) (usage : ℕ → String → ℤ) (config : SchedulerConfig) :
    calculateOptimalSessionDuration taskContext d usage config = 0 ∨
    (config.minBlockMinutes ≤ calculateOptimalSessionDuration taskContext d usage config ∧
     calculateOptimalSessionDuration taskContext d usage config ≤
       taskContext.remainingMinutes ∧
     calculateOptimalSessionDuration taskContext d usage config ≤
       config.maxDailyMinutesPerTask - usage d.dayIndex taskContext.task.id ∧
     calculateOptimalSessionDuration taskContext d usage config ≤
       ROUND_ROBIN_CONFIG.MAX_DAILY_TOTAL_STUDY - d.usedStudyMinutes ∧
     calculateOptimalSessionDuration taskContext d usage config ≤
       config.maxBlockMinutes) := by
  unfold calculateOptimalSessionDuration
  dsimp only
  set M := min taskContext.remainingMinutes
    (min (config.maxDailyMinutesPerTask - usage d.dayIndex taskContext.task.id)
      (min (getDayAvailableMinutes d)
        (min (ROUND_ROBIN_CONFIG.MAX_DAILY_TOTAL_STUDY - d.usedStudyMinutes)
          config.maxBlockMinutes))) with hM
  have hM1 : M ≤ taskContext.remainingMinutes := min_le_left _ _
  have hM2 : M ≤ config.maxDailyMinutesPerTask - usage d.dayIndex taskContext.task.id :=
    le_trans (min_le_right _ _) (min_le_left _ _)
  have hM3 : M ≤ ROUND_ROBIN_CONFIG.MAX_DAILY_TOTAL_STUDY - d.usedStudyMinutes :=
    le_trans (min_le_right _ _)
      (le_trans (min_le_right _ _) (le_trans (min_le_right _ _) (min_le_left _ _)))
  have hM4 : M ≤ config.maxBlockMinutes :=
    le_trans (min_le_right _ _)
      (le_trans (min_le_right _ _) (le_trans (min_le_right _ _) (min_le_right _ _)))
  by_cases hlt : M < config.minBlockMinutes
  · rw [if_pos hlt]
    exact Or.inl rfl
  · rw [if_neg hlt]
    cases hf : ROUND_ROBIN_CONFIG.PREFERRED_SESSION_DURATIONS.find? fun preferred =>
        decide (preferred ≤ M) && decide (config.minBlockMinutes ≤ preferred) with
    | some p =>
        have hp := List.find?_some hf
        simp only [Bool.and_eq_true, decide_eq_true_eq] at hp
        exact Or.inr ⟨hp.2, le_trans hp.1 hM1, le_trans hp.1 hM2, le_trans hp.1 hM3,
          le_trans hp.1 hM4⟩
    | none =>
        rw [if_pos (not_lt.mp hlt)]
        exact Or.inr ⟨not_lt.mp hlt, hM1, hM2, hM3, hM4⟩

theorem shrinkFirst_cons (s : TimeSlot) (t : List TimeSlot) (dur ns : ℤ) :
    shrinkFirstSuitableSlot (s :: t) dur ns =
      if decide (dur ≤ differenceInMinutes s.«end» s.start) then
        { s with start := ns } :: t
      else s :: shrinkFirstSuitableSlot t dur ns := rfl

theorem shrinkFirst_eq_of_find? {dur ns : ℤ} :
    ∀ {l : List TimeSlot} {slot : TimeSlot},
      l.find? (fun s => decide (dur ≤ differenceInMinutes s.«end» s.start)) = some slot →
      ∃ l1 l2, l = l1 ++ slot :: l2 ∧
        shrinkFirstSuitableSlot l dur ns = l1 ++ { slot with start := ns } :: l2 := by
  intro l
  induction l with
  | nil => intro slot h; exact absurd h (by simp)
  | cons s t ih =>
      intro slot h
      by_cases hp : (decide (dur ≤ differenceInMinutes s.«end» s.start) : Bool) = true
      · rw [@List.find?_cons_of_pos _
            (fun s => decide (dur ≤ differenceInMinutes s.«end» s.start)) s t hp] at h
        simp only [Option.some.injEq] at h
        subst h
        refine ⟨[], t, rfl, ?_⟩
        rw [shrinkFirst_cons, if_pos hp]
        rfl
      · rw [@List.find?_cons_of_neg _
            (fun s => decide (dur ≤ differenceInMinutes s.«end» s.start)) s t
            (by simpa using hp)] at h
        obtain ⟨l1, l2, hl, hshrink⟩ := ih h
        refine ⟨s :: l1, l2, by rw [hl]; rfl, ?_⟩
        rw [shrinkFirst_cons, if_neg (by simpa using hp), hshrink]
        rfl

/-! ## updateDaySaturation touches only the saturation field -/

theorem updateDaySaturation_date (d : DaySlotInventory) :
    (updateDaySaturation d).date = d.date := by
  unfold updateDaySaturation; split <;> rfl

theorem updateDaySaturation_dayIndex (d : DaySlotInventory) :
    (updateDaySaturation d).dayIndex = d.dayIndex := by
  unfold updateDaySaturation; split <;> rfl

theorem updateDaySaturation_freeSlots (d : DaySlotInventory) :
    (updateDaySaturation d).freeSlots = d.freeSlots := by
  unfold updateDaySaturation; split <;> rfl

theorem updateDaySaturation_used (d : DaySlotInventory) :
    (updateDaySaturation d).usedStudyMinutes = d.usedStudyMinutes := by
  unfold updateDaySaturation; split <;> rfl

/-! ## Case analysis of one placement attempt -/

theorem placeForTask_spec (now : ℤ) (config : SchedulerConfig) (st : RRState)
    (i : ℕ) :
    placeForTask now config st i = (st, false) ∨
    ∃ taskContext dayIndex dayInventory sessionDuration suitableSlot,
      st.contexts[i]? = some taskContext ∧
      ¬taskContext.remainingMinutes ≤ 0 ∧
      findNextSuitableDay taskContext st.inventory st.dailyTaskUsage
        st.currentDayIndex config = some (dayIndex, dayInventory) ∧
      calculateOptimalSessionDuration taskContext dayInventory st.dailyTaskUsage
        config = sessionDuration ∧
      ¬sessionDuration < config.minBlockMinutes ∧
      dayInventory.freeSlots.find? (fun slot =>
        decide (sessionDuration ≤ differenceInMinutes slot.«end» slot.start)) =
        some suitableSlot ∧
      placeForTask now config st i =
        (placedState now config st i taskContext dayIndex dayInventory
          sessionDuration suitableSlot, true) := by
  unfold placeForTask
  cases hget : st.contexts[i]? with
  | none => exact Or.inl rfl
  | some taskContext =>
      simp only
      by_cases hrem : taskContext.remainingMinutes ≤ 0
      · rw [if_pos hrem]; exact Or.inl rfl
      · rw [if_neg hrem]
        cases hfind : findNextSuitableDay taskContext st.inventory st.dailyTaskUsage
            st.currentDayIndex config with
        | none => exact Or.inl rfl
        | some p =>
            obtain ⟨dayIndex, dayInventory⟩ := p
            simp only
            by_cases hdur : calculateOptimalSessionDuration taskContext dayInventory
                st.dailyTaskUsage config < config.minBlockMinutes
            · rw [if_pos hdur]; exact Or.inl rfl
            · rw [if_neg hdur]
              cases hslot : dayInventory.freeSlots.find? (fun slot =>
                  decide (calculateOptimalSessionDuration taskContext dayInventory
                    st.dailyTaskUsage config ≤
                    differenceInMinutes slot.«end» slot.start)) with
              | none => exact Or.inl rfl
              | some suitableSlot =>
                  exact Or.inr ⟨taskContext, dayIndex, dayInventory, _, suitableSlot,
                    rfl, hrem, hfind, rfl, hdur, hslot, rfl⟩

/-! ## The invariant holds initially -/

theorem initial_inv (config : SchedulerConfig) (now : ℤ) (walls : List (ℤ × ℤ))
    (tasks : List Task) (numDays : ℕ)
    (hsort : walls.Pairwise fun a b => a.1 ≤ b.1)
    (hwf : ∀ r ∈ walls, r.1 ≤ r.2)
    (hpos : ∀ t ∈ tasks, 0 ≤ t.estimated_hours)
    (hmaxd : 0 ≤ config.maxDailyMinutesPerTask) :
    Inv config (startOfDay now) walls
      ((sortTaskContexts (tasks.map fun task => mkTaskContext task now)).map
        fun c => c.task)
      (initialRRState (sortTaskContexts (tasks.map fun task => mkTaskContext task now))
        (buildDailySlotInventory (startOfDay now) numDays walls config)) := by
  have hdate : ∀ (i : ℕ),
      addDays (startOfDay (startOfDay now)) (i : ℤ) = startOfDay now + 1440 * (i : ℤ) := by
    intro i
    rw [startOfDay_of_dvd (startOfDay_dvd now)]
    rfl
  refine
    { ctx_tasks := rfl
      inv_dayIndex := ?_
      inv_date := ?_
      slot_window := ?_
      slot_walls := ?_
      slot_pairwise := ?_
      block_walls := ?_
      block_pairwise := ?_
      block_slots := ?_
      block_shape := ?_
      block_window := ?_
      block_day := ?_
      block_deadline := ?_
      block_ctx := ?_
      remaining_eq := ?_
      used_eq := ?_
      usage_eq := ?_ }
  · intro i h
    simp only [initialRRState] at h ⊢
    rw [buildDailySlotInventory_get]
  · intro i h
    simp only [initialRRState] at h ⊢
    rw [buildDailySlotInventory_get]
    exact hdate i
  · intro d hd s hs
    obtain ⟨i, hi, rfl⟩ := buildDailySlotInventory_mem hd
    obtain ⟨wh, hwh, h1, h2, h3, _⟩ := findFreeSlots_mem hs
    exact ⟨wh, hwh, h1, h3⟩
  · intro d hd s hs r hr
    obtain ⟨i, hi, rfl⟩ := buildDailySlotInventory_mem hd
    exact findFreeSlots_disjoint hsort hwf s hs r hr
  · intro d hd
    obtain ⟨i, hi, rfl⟩ := buildDailySlotInventory_mem hd
    exact (findFreeSlots_pairwise hwf).imp fun h => Or.inl h
  · intro b hb; exact absurd hb (by simp [initialRRState])
  · exact List.Pairwise.nil
  · intro b hb; exact absurd hb (by simp [initialRRState])
  · intro b hb; exact absurd hb (by simp [initialRRState])
  · intro b hb; exact absurd hb (by simp [initialRRState])
  · intro b hb; exact absurd hb (by simp [initialRRState])
  · intro b hb; exact absurd hb (by simp [initialRRState])
  · intro b hb; exact absurd hb (by simp [initialRRState])
  · intro c hc
    have hc' : c ∈ tasks.map fun task => mkTaskContext task now :=
      (List.perm_insertionSort _ _).mem_iff.mp hc
    obtain ⟨t, ht, rfl⟩ := List.mem_map.mp hc'
    refine ⟨?_, ?_⟩
    · show (calculateTaskSchedulingPlan t now).2.2 =
        t.estimated_hours * 60 - blockMinutes (List.filter _ [])
      simp [calculateTaskSchedulingPlan, blockMinutes]
    · show (0 : ℤ) ≤ t.estimated_hours * 60
      have := hpos t ht
      omega
  · intro i h
    simp only [initialRRState] at h ⊢
    rw [buildDailySlotInventory_get]
    constructor
    · simp [blockMinutes]
    · show (0 : ℤ) ≤ 360
      omega
  · intro i tid
    constructor
    · simp [blockMinutes, initialRRState]
    · exact hmaxd

/-! ## Helper lemmas for the preservation proof -/

theorem set_getElem?_self {α : Type} {l : List α} {i : ℕ} {a : α}
    (h : l[i]? = some a) : l.set i a = l := by
  apply List.ext_getElem?
  intro j
  by_cases hij : j = i
  · subst hij
    rw [List.getElem?_set_self (by
      obtain ⟨hlt, _⟩ := List.getElem?_eq_some.mp h
      simpa using hlt)]
    exact h.symm
  · exact List.getElem?_set_ne (fun hh => hij hh.symm)

theorem mem_set_cases {α : Type} {l : List α} {k : ℕ} {a x : α}
    (hx : x ∈ l.set k a) :
    x = a ∨ ∃ j, ∃ h : j < l.length, j ≠ k ∧ l.get ⟨j, h⟩ = x := by
  obtain ⟨j, hj, hget⟩ := List.mem_iff_getElem.mp hx
  by_cases hjk : j = k
  · subst hjk
    rw [List.getElem_set_self hj] at hget
    exact Or.inl hget.symm
  · rw [List.getElem_set_ne (fun hh => hjk hh.symm) hj] at hget
    exact Or.inr ⟨j, by simpa using hj, hjk, hget⟩

theorem pairwise_middle_replace {α : Type} {R : α → α → Prop} {l1 l2 : List α}
    {a b : α} (h : (l1 ++ a :: l2).Pairwise R)
    (h1 : ∀ x, R x a → R x b) (h2 : ∀ y, R a y → R b y) :
    (l1 ++ b :: l2).Pairwise R := by
  rw [List.pairwise_append] at h ⊢
  obtain ⟨hl1, hcons, hcross⟩ := h
  rw [List.pairwise_cons] at hcons ⊢
  refine ⟨hl1, ⟨fun y hy => h2 y (hcons.1 y hy), hcons.2⟩, ?_⟩
  intro x hx y hy
  rcases List.mem_cons.mp hy with rfl | hy
  · exact h1 x (hcross x hx a (List.mem_cons_self _ _))
  · exact hcross x hx y (List.mem_cons_of_mem _ hy)

theorem blockMinutes_filter_append (p : ScheduleBlock → Bool)
    (bs : List ScheduleBlock) (b : ScheduleBlock) :
    blockMinutes ((bs ++ [b]).filter p) =
      blockMinutes (bs.filter p) + (if p b then b.duration_minutes else 0) := by
  rw [List.filter_append, blockMinutes_append]
  by_cases hp : p b = true
  · simp [hp, blockMinutes]
  · simp only [Bool.not_eq_true] at hp
    simp [hp, blockMinutes]

/-- Derived from the invariant: every slot of day `i` lies inside that day. -/
theorem Inv.slot_day_range {config : SchedulerConfig} {base : ℤ}
    {walls : List (ℤ × ℤ)} {tasks0 : List Task} {st : RRState}
    (hinv : Inv config base walls tasks0 st) (hcfg : ConfigWF config)
    (hbase : (1440 : ℤ) ∣ base) :
    ∀ i (h : i < st.inventory.length), ∀ s ∈ (st.inventory.get ⟨i, h⟩).freeSlots,
      base + 1440 * (i : ℤ) ≤ s.start ∧ s.«end» ≤ base + 1440 * (i : ℤ) + 1440 := by
  intro i h s hs
  have hd := hinv.inv_date i h
  obtain ⟨wh, hwh, h1, h2⟩ :=
    hinv.slot_window _ (List.get_mem _ _ _) s hs
  have hin := getWorkingSlots_in_day hcfg hwh
  have hdd : startOfDay ((st.inventory.get ⟨i, h⟩).date) =
      (st.inventory.get ⟨i, h⟩).date := by
    apply startOfDay_of_dvd
    rw [hd]
    exact dvd_add hbase ⟨(i : ℤ), by ring⟩
  rw [hdd, hd] at hin
  exact ⟨le_trans hin.1 h1, le_trans h2 hin.2⟩

/-- Derived from the invariant: a day's date is divisible by 1440. -/
theorem Inv.date_dvd {config : SchedulerConfig} {base : ℤ}
    {walls : List (ℤ × ℤ)} {tasks0 : List Task} {st : RRState}
    (hinv : Inv config base walls tasks0 st) (hbase : (1440 : ℤ) ∣ base)
    {i : ℕ} (h : i < st.inventory.length) :
    (1440 : ℤ) ∣ (st.inventory.get ⟨i, h⟩).date := by
  rw [hinv.inv_date i h]
  exact dvd_add hbase ⟨(i : ℤ), by ring⟩

/-! ## Preservation of the invariant by one placement attempt -/

theorem placeForTask_inv {config : SchedulerConfig} {base : ℤ}
    {walls : List (ℤ × ℤ)} {tasks0 : List Task} {now : ℤ} {st : RRState} {i : ℕ}
    (hcfg : ConfigWF config) (hbase : (1440 : ℤ) ∣ base)
    (hids : (tasks0.map fun t => t.id).Nodup)
    (hinv : Inv config base walls tasks0 st) :
    Inv config base walls tasks0 (placeForTask now config st i).1 := by
  rcases placeForTask_spec now config st i with hspec |
    ⟨tc, dayIndex, dayInv, dur, slot, hget, hrem, hfind, hdureq, hdurlt, hslot, hres⟩
  · rw [hspec]; exact hinv
  rw [hres]
  dsimp only
  -- facts about the chosen context
  obtain ⟨hilt, htci⟩ := List.getElem?_eq_some.mp hget
  have htcmem : tc ∈ st.contexts := htci ▸ List.getElem_mem hilt
  -- facts about the chosen day
  obtain ⟨hinvd, hchecks⟩ := findNextSuitableDay_some hfind
  obtain ⟨hdlt, hdget⟩ := List.getElem?_eq_some.mp hinvd
  have hdmem : dayInv ∈ st.inventory := hdget ▸ List.getElem_mem hdlt
  have hgetd : st.inventory.get ⟨dayIndex, hdlt⟩ = dayInv := by
    rw [List.get_eq_getElem]; exact hdget
  obtain ⟨hdead, _havail, husedlt, husagelt⟩ := suitableDayChecks_true hchecks
  have hdidx : dayInv.dayIndex = dayIndex := by
    rw [← hgetd]; exact hinv.inv_dayIndex dayIndex hdlt
  have hdate : dayInv.date = base + 1440 * (dayIndex : ℤ) := by
    rw [← hgetd]; exact hinv.inv_date dayIndex hdlt
  -- facts about the session duration
  have hmin0 : 0 < config.minBlockMinutes := hcfg.1
  have hbrk : 0 ≤ config.breakBetweenBlocks := hcfg.2.1
  have hcal := calculateOptimalSessionDuration_spec tc dayInv st.dailyTaskUsage config
  rw [hdureq] at hcal
  rcases hcal with h0 | ⟨hmind, hremle, hdailyle, htotle, _hmaxle⟩
  · exact absurd (by rw [h0]; exact hmin0) hdurlt
  have hdurpos : 0 < dur := lt_of_lt_of_le hmin0 hmind
  -- facts about the chosen slot
  have hslotmem : slot ∈ dayInv.freeSlots := List.mem_of_find?_eq_some hslot
  have hsfit : dur ≤ slot.«end» - slot.start := by
    have := List.find?_some hslot
    simpa [differenceInMinutes] using this
  obtain ⟨l1, l2, hsplit, hshrunk⟩ := @shrinkFirst_eq_of_find? dur (addMinutes
    (addMinutes slot.start dur) config.breakBetweenBlocks) _ _ hslot
  -- abbreviations
  set ns : ℤ := addMinutes (addMinutes slot.start dur) config.breakBetweenBlocks with hnsdef
  have hns : slot.start ≤ ns := by
    show slot.start ≤ slot.start + dur + config.breakBetweenBlocks
    omega
  set b : ScheduleBlock := newBlockFor now st tc slot dur with hbdef
  have hbstart : b.start_at = slot.start := rfl
  have hbend : b.end_at = slot.start + dur := rfl
  have hbtask : b.task_id = tc.task.id := rfl
  have hbdur : b.duration_minutes = dur := rfl
  have hbendns : b.end_at ≤ ns := by
    rw [hbend]
    show slot.start + dur ≤ slot.start + dur + config.breakBetweenBlocks
    omega
  set tc' : TaskSchedulingContext :=
    { tc with
        remainingMinutes := tc.remainingMinutes - dur
        scheduledSessions := tc.scheduledSessions + 1
        lastSessionDate := some dayInv.date } with htcdef
  set nd : DaySlotInventory := updateDaySaturation
    { dayInv with
        freeSlots := shrinkFirstSuitableSlot dayInv.freeSlots dur ns
        usedStudyMinutes := dayInv.usedStudyMinutes + dur } with hnddef
  have hnd_date : nd.date = dayInv.date := by
    rw [hnddef, updateDaySaturation_date]
  have hnd_idx : nd.dayIndex = dayInv.dayIndex := by
    rw [hnddef, updateDaySaturation_dayIndex]
  have hnd_slots : nd.freeSlots = l1 ++ { slot with start := ns } :: l2 := by
    rw [hnddef, updateDaySaturation_freeSlots]
    exact hshrunk
  have hnd_used : nd.usedStudyMinutes = dayInv.usedStudyMinutes + dur := by
    rw [hnddef, updateDaySaturation_used]
  -- day-range facts
  have hrange : ∀ s ∈ dayInv.freeSlots,
      base + 1440 * (dayIndex : ℤ) ≤ s.start ∧
      s.«end» ≤ base + 1440 * (dayIndex : ℤ) + 1440 := by
    intro s hs
    exact hinv.slot_day_range hcfg hbase dayIndex hdlt s (by rw [hgetd]; exact hs)
  have hslotrange := hrange slot hslotmem
  have hslotlt : slot.start < slot.«end» := by omega
  have hbday : startOfDay b.start_at = base + 1440 * (dayIndex : ℤ) := by
    refine startOfDay_eq_of (dvd_add hbase ⟨(dayIndex : ℤ), by ring⟩) ?_ ?_
    · rw [hbstart]; exact hslotrange.1
    · rw [hbstart]; omega
  have hbdaydate : startOfDay b.start_at = dayInv.date := by rw [hbday, hdate]
  -- window facts
  obtain ⟨wh, hwh, hwh1, hwh2⟩ := hinv.slot_window dayInv hdmem slot hslotmem
  have hbslot2 : b.end_at ≤ slot.«end» := by rw [hbend]; omega
  -- the old blocks are disjoint from the chosen slot
  have hbold : ∀ bo ∈ st.createdBlocks,
      slot.«end» ≤ bo.start_at ∨ bo.end_at ≤ slot.start :=
    fun bo hbo => hinv.block_slots bo hbo dayInv hdmem slot hslotmem
  -- decomposition of the old pairwise-slot fact around the chosen slot
  have hpw := hinv.slot_pairwise dayInv hdmem
  rw [hsplit, List.pairwise_append] at hpw
  have hl1slot : ∀ x ∈ l1, x.«end» ≤ slot.start ∨ slot.«end» ≤ x.start :=
    fun x hx => hpw.2.2 x hx slot (List.mem_cons_self _ _)
  have hslotl2 : ∀ y ∈ l2, slot.«end» ≤ y.start ∨ y.«end» ≤ slot.start :=
    (List.pairwise_cons.mp hpw.2.1).1
  -- membership in the shrunk slot list
  have hndmem : ∀ s ∈ nd.freeSlots, s ∈ dayInv.freeSlots ∨ s = { slot with start := ns } := by
    intro s hs
    rw [hnd_slots] at hs
    rcases List.mem_append.mp hs with hs | hs
    · exact Or.inl (by rw [hsplit]; exact List.mem_append.mpr (Or.inl hs))
    · rcases List.mem_cons.mp hs with rfl | hs
      · exact Or.inr rfl
      · exact Or.inl (by
          rw [hsplit]
          exact List.mem_append.mpr (Or.inr (List.mem_cons_of_mem _ hs)))
  -- nodup of the context task ids
  have hidsc : (st.contexts.map fun c => c.task.id).Nodup := by
    have : (st.contexts.map fun c => c.task.id) = tasks0.map fun t => t.id := by
      rw [← hinv.ctx_tasks, List.map_map]
      rfl
    rw [this]
    exact hids
  have hiddiff : ∀ j (hj : j < st.contexts.length), j ≠ i →
      (st.contexts.get ⟨j, hj⟩).task.id ≠ tc.task.id := by
    intro j hj hne he
    have hji' : ((st.contexts.map fun c => c.task.id).get
        ⟨j, by rw [List.length_map]; exact hj⟩) =
        ((st.contexts.map fun c => c.task.id).get
        ⟨i, by rw [List.length_map]; exact hilt⟩) := by
      simp only [List.get_eq_getElem, List.getElem_map]
      rw [htci] at *
      simpa using he
    have := (hidsc.get_inj_iff.mp hji')
    exact hne (by simpa using congrArg Fin.val this)
  have htask0 : tc.task ∈ tasks0 := by
    rw [← hinv.ctx_tasks]
    exact List.mem_map_of_mem _ htcmem
  -- the block matches the day of its index uniquely
  have hdayuniq : ∀ j : ℕ, base + 1440 * (j : ℤ) = base + 1440 * (dayIndex : ℤ) → j = dayIndex := by
    intro j hj
    omega
  refine
    { ctx_tasks := ?_
      inv_dayIndex := ?_
      inv_date := ?_
      slot_window := ?_
      slot_walls := ?_
      slot_pairwise := ?_
      block_walls := ?_
      block_pairwise := ?_
      block_slots := ?_
      block_shape := ?_
      block_window := ?_
      block_day := ?_
      block_deadline := ?_
      block_ctx := ?_
      remaining_eq := ?_
      used_eq := ?_
      usage_eq := ?_ }
  -- ctx_tasks
  · show (st.contexts.set i tc').map (fun c => c.task) = tasks0
    rw [List.map_set]
    have hmi : ((st.contexts.map fun c => c.task)[i]?) = some tc'.task := by
      rw [List.getElem?_map, hget]
      rfl
    rw [set_getElem?_self hmi, hinv.ctx_tasks]
  -- inv_dayIndex
  · intro j hj
    show ((st.inventory.set dayIndex nd).get ⟨j, hj⟩).dayIndex = j
    have hj' : j < st.inventory.length := by
      have := hj
      simp only [placedState, List.length_set] at this
      exact this
    by_cases hji : j = dayIndex
    · subst hji
      rw [List.get_eq_getElem, List.getElem_set_self hj, hnd_idx, hdidx]
    · rw [List.get_eq_getElem, List.getElem_set_ne (fun hh => hji hh.symm) hj]
      have := hinv.inv_dayIndex j hj'
      rw [List.get_eq_getElem] at this
      exact this
  -- inv_date
  · intro j hj
    show ((st.inventory.set dayIndex nd).get ⟨j, hj⟩).date = base + 1440 * (j : ℤ)
    have hj' : j < st.inventory.length := by
      have := hj
      simp only [placedState, List.length_set] at this
      exact this
    by_cases hji : j = dayIndex
    · subst hji
      rw [List.get_eq_getElem, List.getElem_set_self hj, hnd_date, hdate]
    · rw [List.get_eq_getElem, List.getElem_set_ne (fun hh => hji hh.symm) hj]
      have := hinv.inv_date j hj'
      rw [List.get_eq_getElem] at this
      exact this
  -- slot_window
  · intro d hd s hs
    rcases mem_set_cases hd with rfl | ⟨j, hj, hji, rfl⟩
    · rcases hndmem s hs with hsold | rfl
      · obtain ⟨wh', hwh', hw1, hw2⟩ := hinv.slot_window dayInv hdmem s hsold
        exact ⟨wh', by rw [hnd_date]; exact hwh', hw1, hw2⟩
      · exact ⟨wh, by rw [hnd_date]; exact hwh, le_trans hwh1 hns, hwh2⟩
    · exact hinv.slot_window _ (List.get_mem _ _ _) s hs
  -- slot_walls
  · intro d hd s hs r hr
    rcases mem_set_cases hd with rfl | ⟨j, hj, hji, rfl⟩
    · rcases hndmem s hs with hsold | rfl
      · exact hinv.slot_walls dayInv hdmem s hsold r hr
      · rcases hinv.slot_walls dayInv hdmem slot hslotmem r hr with h | h
        · exact Or.inl (le_trans h hns)
        · exact Or.inr h
    · exact hinv.slot_walls _ (List.get_mem _ _ _) s hs r hr
  -- slot_pairwise
  · intro d hd
    rcases mem_set_cases hd with rfl | ⟨j, hj, hji, rfl⟩
    · rw [hnd_slots]
      have hpw0 := hinv.slot_pairwise dayInv hdmem
      rw [hsplit] at hpw0
      refine pairwise_middle_replace hpw0 ?_ ?_
      · intro x hx
        rcases hx with hx | hx
        · exact Or.inl (le_trans hx hns)
        · exact Or.inr hx
      · intro y hy
        rcases hy with hy | hy
        · exact Or.inl hy
        · exact Or.inr (le_trans hy hns)
    · exact hinv.slot_pairwise _ (List.get_mem _ _ _)
  -- block_walls
  · intro b' hb' r hr
    rcases List.mem_append.mp hb' with hb' | hb'
    · exact hinv.block_walls b' hb' r hr
    · rw [List.mem_singleton] at hb'
      subst hb'
      rcases hinv.slot_walls dayInv hdmem slot hslotmem r hr with h | h
      · exact Or.inl (by rw [hbstart]; exact h)
      · exact Or.inr (le_trans hbslot2 h)
  -- block_pairwise
  · show (st.createdBlocks ++ [b]).Pairwise fun b1 b2 =>
      b1.end_at ≤ b2.start_at ∨ b2.end_at ≤ b1.start_at
    rw [List.pairwise_append]
    refine ⟨hinv.block_pairwise, List.pairwise_singleton _ _, ?_⟩
    intro bo hbo y hy
    rw [List.mem_singleton] at hy
    subst hy
    rcases hbold bo hbo with h | h
    · exact Or.inr (le_trans hbslot2 h)
    · exact Or.inl (by rw [hbstart]; exact h)
  -- block_slots
  · intro b' hb' d hd s hs
    rcases List.mem_append.mp hb' with hb' | hb'
    · -- an old block
      rcases mem_set_cases hd with rfl | ⟨j, hj, hji, rfl⟩
      · rcases hndmem s hs with hsold | rfl
        · exact hinv.block_slots b' hb' dayInv hdmem s hsold
        · rcases hinv.block_slots b' hb' dayInv hdmem slot hslotmem with h | h
          · exact Or.inl h
          · exact Or.inr (le_trans h hns)
      · exact hinv.block_slots b' hb' _ (List.get_mem _ _ _) s hs
    · -- the new block
      rw [List.mem_singleton] at hb'
      subst hb'
      rcases mem_set_cases hd with rfl | ⟨j, hj, hji, rfl⟩
      · -- same day: use the decomposition around the chosen slot
        rw [hnd_slots] at hs
        rcases List.mem_append.mp hs with hs | hs
        · rcases hl1slot s hs with h | h
          · exact Or.inl (by rw [hbstart]; exact h)
          · exact Or.inr (le_trans hbslot2 h)
        · rcases List.mem_cons.mp hs with rfl | hs
          · exact Or.inr hbendns
          · rcases hslotl2 s hs with h | h
            · exact Or.inr (le_trans hbslot2 h)
            · exact Or.inl (by rw [hbstart]; exact h)
      · -- another day: the day intervals are disjoint
        have hsr := hinv.slot_day_range hcfg hbase j hj s hs
        have hbr1 : base + 1440 * (dayIndex : ℤ) ≤ b.start_at := by
          rw [hbstart]; exact hslotrange.1
        have hbr2 : b.end_at ≤ base + 1440 * (dayIndex : ℤ) + 1440 := by
          have := hslotrange.2
          omega
        rcases Nat.lt_or_ge j dayIndex with hlt | hge
        · refine Or.inl ?_
          show s.«end» ≤ b.start_at
          have hc : (j : ℤ) + 1 ≤ (dayIndex : ℤ) := by exact_mod_cast hlt
          have h2 := hsr.2
          omega
        · have hgt : dayIndex < j := by omega
          refine Or.inr ?_
          show b.end_at ≤ s.start
          have hc : (dayIndex : ℤ) + 1 ≤ (j : ℤ) := by exact_mod_cast hgt
          have h1 := hsr.1
          omega
  -- block_shape
  · intro b' hb'
    rcases List.mem_append.mp hb' with hb' | hb'
    · exact hinv.block_shape b' hb'
    · rw [List.mem_singleton] at hb'
      subst hb'
      exact ⟨rfl, by rw [hbdur]; exact hmind⟩
  -- block_window
  · intro b' hb'
    rcases List.mem_append.mp hb' with hb' | hb'
    · exact hinv.block_window b' hb'
    · rw [List.mem_singleton] at hb'
      subst hb'
      obtain ⟨dh, hdh, hwhs, hwhe⟩ := getWorkingSlots_eq_some hwh
      have hsod : startOfDay dayInv.date = dayInv.date :=
        startOfDay_of_dvd (by rw [hdate]; exact dvd_add hbase ⟨(dayIndex : ℤ), by ring⟩)
      refine ⟨dh, ?_, ?_, ?_⟩
      · rw [getDay_eq_of_startOfDay hbdaydate]
        exact hdh
      · rw [hbdaydate, ← hsod, ← hwhs, hbstart]
        exact hwh1
      · rw [hbdaydate, ← hsod, ← hwhe]
        exact le_trans hbslot2 hwh2
  -- block_day
  · intro b' hb'
    rcases List.mem_append.mp hb' with hb' | hb'
    · obtain ⟨j, hj, h1, h2⟩ := hinv.block_day b' hb'
      exact ⟨j, by simp only [placedState, List.length_set]; exact hj, h1, h2⟩
    · rw [List.mem_singleton] at hb'
      subst hb'
      refine ⟨dayIndex, by simp only [placedState, List.length_set]; exact hdlt, hbday, ?_⟩
      rw [hbday]
      show b.end_at ≤ base + 1440 * (dayIndex : ℤ) + 1440
      have := hslotrange.2
      omega
  -- block_deadline
  · intro b' hb' t ht hid
    rcases List.mem_append.mp hb' with hb' | hb'
    · exact hinv.block_deadline b' hb' t ht hid
    · rw [List.mem_singleton] at hb'
      subst hb'
      have hteq : t = tc.task :=
        List.inj_on_of_nodup_map hids ht htask0 (by rw [hid]; rfl)
      rw [hbdaydate, hteq]
      exact hdead
  -- block_ctx
  · intro b' hb'
    rcases List.mem_append.mp hb' with hb' | hb'
    · exact hinv.block_ctx b' hb'
    · rw [List.mem_singleton] at hb'
      subst hb'
      exact ⟨tc.task, htask0, rfl⟩
  -- remaining_eq
  · intro c hc
    rcases mem_set_cases hc with rfl | ⟨j, hj, hji, rfl⟩
    · have hold := hinv.remaining_eq tc htcmem
      have hpb : (b.task_id == tc'.task.id) = true := by
        show (tc.task.id == tc.task.id) = true
        exact beq_self_eq_true _
      constructor
      · show tc.remainingMinutes - dur =
          tc'.task.estimated_hours * 60 - blockMinutes
            ((st.createdBlocks ++ [b]).filter fun b' => b'.task_id == tc'.task.id)
        rw [blockMinutes_filter_append, hpb, if_pos rfl]
        show tc.remainingMinutes - dur =
          tc.task.estimated_hours * 60 -
            (blockMinutes (st.createdBlocks.filter fun b' => b'.task_id == tc.task.id) +
              b.duration_minutes)
        rw [hbdur]
        omega
      · show 0 ≤ tc.remainingMinutes - dur
        omega
    · have hcm : st.contexts.get ⟨j, hj⟩ ∈ st.contexts := List.get_mem _ _ _
      have hold := hinv.remaining_eq _ hcm
      have hne := hiddiff j hj hji
      have hpb : (b.task_id == (st.contexts.get ⟨j, hj⟩).task.id) = false := by
        rw [hbtask]
        exact beq_false_of_ne fun hh => hne hh.symm
      constructor
      · show (st.contexts.get ⟨j, hj⟩).remainingMinutes =
          (st.contexts.get ⟨j, hj⟩).task.estimated_hours * 60 -
            blockMinutes ((st.createdBlocks ++ [b]).filter fun b' =>
              b'.task_id == (st.contexts.get ⟨j, hj⟩).task.id)
        rw [blockMinutes_filter_append, hpb]
        simpa using hold.1
      · exact hold.2
  -- used_eq
  · intro j hj
    have hj' : j < st.inventory.length := by
      have := hj
      simp only [placedState, List.length_set] at this
      exact this
    show ((st.inventory.set dayIndex nd).get ⟨j, hj⟩).usedStudyMinutes =
        blockMinutes ((st.createdBlocks ++ [b]).filter fun b' =>
          startOfDay b'.start_at == base + 1440 * (j : ℤ)) ∧
      ((st.inventory.set dayIndex nd).get ⟨j, hj⟩).usedStudyMinutes ≤
        ROUND_ROBIN_CONFIG.MAX_DAILY_TOTAL_STUDY
    by_cases hji : j = dayIndex
    · subst hji
      rw [List.get_eq_getElem, List.getElem_set_self hj, hnd_used]
      have hold := hinv.used_eq j hj'
      rw [List.get_eq_getElem, hdget] at hold
      constructor
      · rw [blockMinutes_filter_append, if_pos (by rw [hbday]; exact beq_self_eq_true _),
          hbdur, hold.1]
      · omega
    · rw [List.get_eq_getElem, List.getElem_set_ne (fun hh => hji hh.symm) hj]
      have hold := hinv.used_eq j hj'
      rw [List.get_eq_getElem] at hold
      have hpb : (startOfDay b.start_at == base + 1440 * (j : ℤ)) = false := by
        rw [hbday]
        refine beq_false_of_ne fun hh => hji ?_
        omega
      constructor
      · rw [blockMinutes_filter_append, hpb]
        simpa using hold.1
      · exact hold.2
  -- usage_eq
  · intro j tid
    have hold := hinv.usage_eq j tid
    show (if (j == dayIndex) && (tid == tc.task.id) then
        st.dailyTaskUsage j tid + dur else st.dailyTaskUsage j tid) =
        blockMinutes ((st.createdBlocks ++ [b]).filter fun b' =>
          b'.task_id == tid && (startOfDay b'.start_at == base + 1440 * (j : ℤ))) ∧
      (if (j == dayIndex) && (tid == tc.task.id) then
        st.dailyTaskUsage j tid + dur else st.dailyTaskUsage j tid) ≤
        config.maxDailyMinutesPerTask
    by_cases hcase : j = dayIndex ∧ tid = tc.task.id
    · obtain ⟨rfl, rfl⟩ := hcase
      rw [if_pos (by simp)]
      constructor
      · rw [blockMinutes_filter_append,
          if_pos (by rw [hbtask, hbday]; simp), hbdur, hold.1]
      · have := hold.1
        rw [hdidx] at hdailyle
        omega
    · have hifneg : ((j == dayIndex) && (tid == tc.task.id)) = false := by
        rw [Bool.and_eq_false_iff]
        by_cases h1 : j = dayIndex
        · refine Or.inr (beq_false_of_ne ?_)
          intro h2
          exact hcase ⟨h1, h2⟩
        · exact Or.inl (by simpa using h1)
      rw [hifneg]
      simp only [Bool.false_eq_true, if_false]
      have hpb : (b.task_id == tid &&
          (startOfDay b.start_at == base + 1440 * (j : ℤ))) = false := by
        rw [Bool.and_eq_false_iff]
        by_cases h1 : j = dayIndex
        · subst h1
          refine Or.inl (beq_false_of_ne ?_)
          rw [hbtask]
          intro h2
          exact hcase ⟨rfl, h2.symm⟩
        · refine Or.inr ?_
          rw [hbday]
          refine beq_false_of_ne fun hh => h1 ?_
          omega
      constructor
      · rw [blockMinutes_filter_append, hpb]
        simpa using hold.1
      · exact hold.2

/-! ## Preservation through the loop -/

/-- The invariant ignores the two loop counters. -/
theorem Inv.with_counters {config : SchedulerConfig} {base : ℤ}
    {walls : List (ℤ × ℤ)} {tasks0 : List Task} {st : RRState}
    (hinv : Inv config base walls tasks0 st) (cdi rwp : ℕ) :
    Inv config base walls tasks0
      { st with currentDayIndex := cdi, roundsWithoutPlacement := rwp } :=
  { ctx_tasks := hinv.ctx_tasks
    inv_dayIndex := hinv.inv_dayIndex
    inv_date := hinv.inv_date
    slot_window := hinv.slot_window
    slot_walls := hinv.slot_walls
    slot_pairwise := hinv.slot_pairwise
    block_walls := hinv.block_walls
    block_pairwise := hinv.block_pairwise
    block_slots := hinv.block_slots
    block_shape := hinv.block_shape
    block_window := hinv.block_window
    block_day := hinv.block_day
    block_deadline := hinv.block_deadline
    block_ctx := hinv.block_ctx
    remaining_eq := hinv.remaining_eq
    used_eq := hinv.used_eq
    usage_eq := hinv.usage_eq }

theorem roundAux_inv {config : SchedulerConfig} {base : ℤ} {walls : List (ℤ × ℤ)}
    {tasks0 : List Task} {now : ℤ}
    (hcfg : ConfigWF config) (hbase : (1440 : ℤ) ∣ base)
    (hids : (tasks0.map fun t => t.id).Nodup) :
    ∀ {remaining : ℕ} {st : RRState} {k : ℕ} {placed : Bool},
      Inv config base walls tasks0 st →
      Inv config base walls tasks0 (roundAux now config st k remaining placed).1 := by
  intro remaining
  induction remaining with
  | zero => intro st k placed hinv; exact hinv
  | succ remaining ih =>
      intro st k placed hinv
      exact ih (placeForTask_inv hcfg hbase hids hinv)

theorem rrLoopAux_inv {config : SchedulerConfig} {base : ℤ} {walls : List (ℤ × ℤ)}
    {tasks0 : List Task} {now : ℤ}
    (hcfg : ConfigWF config) (hbase : (1440 : ℤ) ∣ base)
    (hids : (tasks0.map fun t => t.id).Nodup) :
    ∀ {fuel : ℕ} {st : RRState},
      Inv config base walls tasks0 st →
      Inv config base walls tasks0 (rrLoopAux now config fuel st) := by
  intro fuel
  induction fuel with
  | zero => intro st hinv; exact hinv
  | succ fuel ih =>
      intro st hinv
      unfold rrLoopAux
      have h1 : Inv config base walls tasks0
          (roundAux now config st 0 st.contexts.length false).1 :=
        roundAux_inv hcfg hbase hids hinv
      by_cases hp : (roundAux now config st 0 st.contexts.length false).2 = true
      · rw [if_pos hp]
        dsimp only
        split
      -- if allComplete, return; else recurse
        · exact h1.with_counters _ _
        · exact ih (h1.with_counters _ _)
      · rw [if_neg hp]
        dsimp only
        split
        · exact h1.with_counters _ _
        · split
          · exact h1.with_counters _ _
          · exact ih (h1.with_counters _ _)

/-- The scheduled tasks are a permutation of the eligible tasks. -/
theorem scheduledTasksOf_perm (tasks : List Task) (now : ℤ) :
    (scheduledTasksOf tasks now).Perm (eligibleTasksOf tasks now) := by
  unfold scheduledTasksOf sortTaskContexts
  have h1 := (List.perm_insertionSort
    (fun a b : TaskSchedulingContext => Frac.le b.priority a.priority = true)
    ((eligibleTasksOf tasks now).map fun task => mkTaskContext task now)).map
    fun c => c.task
  refine h1.trans ?_
  rw [List.map_map]
  exact (List.map_id (eligibleTasksOf tasks now)).symm ▸ List.Perm.refl _

/-- Nodup of the scheduled tasks' ids, from nodup of the input tasks' ids. -/
theorem scheduledTasksOf_nodup {tasks : List Task} {now : ℤ}
    (hids : (tasks.map fun t => t.id).Nodup) :
    ((scheduledTasksOf tasks now).map fun t => t.id).Nodup := by
  have hperm := (scheduledTasksOf_perm tasks now).map fun t => t.id
  refine List.Nodup.perm ?_ hperm.symm
  unfold eligibleTasksOf
  exact ((List.filter_sublist tasks).map fun t => t.id).nodup hids

theorem engineFinalState_inv (tasks : List Task) (fixedEvents : List FixedEvent)
    (lockedBlocks : List ScheduleBlock) (config : SchedulerConfig) (now : ℤ)
    (hcfg : ConfigWF config) (hev : EventsWF fixedEvents)
    (hbl : BlocksWF lockedBlocks) (hids : (tasks.map fun t => t.id).Nodup) :
    Inv config (startOfDay now) (getBlockedRanges fixedEvents lockedBlocks)
      (scheduledTasksOf tasks now)
      (engineFinalState tasks fixedEvents lockedBlocks config now) := by
  unfold engineFinalState finalRRState
  refine rrLoopAux_inv hcfg (startOfDay_dvd now) (scheduledTasksOf_nodup hids) ?_
  refine initial_inv config now (getBlockedRanges fixedEvents lockedBlocks)
    (eligibleTasksOf tasks now) _ (getBlockedRanges_sorted _ _)
    (getBlockedRanges_wf hev hbl) ?_ hcfg.2.2.1
  intro t ht
  unfold eligibleTasksOf at ht
  have := List.of_mem_filter ht
  simp only [Bool.and_eq_true, decide_eq_true_eq] at this
  omega

/-! ## The two branches of generateScheduleBlocks -/

theorem generateScheduleBlocks_empty {tasks : List Task}
    {fixedEvents : List FixedEvent} {lockedBlocks : List ScheduleBlock}
    {config : SchedulerConfig} {now : ℤ}
    (h : (eligibleTasksOf tasks now).isEmpty = true) :
    generateScheduleBlocks tasks fixedEvents lockedBlocks config now =
      { success := true, createdBlocks := [], warnings := [] } := by
  unfold generateScheduleBlocks
  rw [if_pos h]

theorem generateScheduleBlocks_eq {tasks : List Task}
    {fixedEvents : List FixedEvent} {lockedBlocks : List ScheduleBlock}
    {config : SchedulerConfig} {now : ℤ}
    (h : (eligibleTasksOf tasks now).isEmpty = false) :
    generateScheduleBlocks tasks fixedEvents lockedBlocks config now =
      { success := (warningsOf
          (engineFinalState tasks fixedEvents lockedBlocks config now).contexts).isEmpty
        createdBlocks :=
          (engineFinalState tasks fixedEvents lockedBlocks config now).createdBlocks
        warnings := warningsOf
          (engineFinalState tasks fixedEvents lockedBlocks config now).contexts } := by
  unfold generateScheduleBlocks scheduleTasksRoundRobin engineFinalState
  rw [if_neg (by rw [h]; exact Bool.false_ne_true)]

/-! ## The overlap test versus one-sided disjointness -/

theorem overlap_eq_false_of_disjoint {b1 b2 w1 w2 : ℤ} (hb : b1 ≤ b2)
    (hw : w1 ≤ w2) (h : w2 ≤ b1 ∨ b2 ≤ w1) :
    doTimeRangesOverlap b1 b2 w1 w2 = false := by
  rw [Bool.eq_false_iff]
  intro ht
  unfold doTimeRangesOverlap areIntervalsOverlapping at ht
  simp only [Bool.and_eq_true, decide_eq_true_eq] at ht
  rw [min_eq_left hb, max_eq_right hb, min_eq_left hw, max_eq_right hw] at ht
  omega

theorem overlap_iff_strict {s1 e1 s2 e2 : ℤ} (h1 : s1 ≤ e1) (h2 : s2 ≤ e2) :
    doTimeRangesOverlap s1 e1 s2 e2 = true ↔ s1 < e2 ∧ s2 < e1 := by
  unfold doTimeRangesOverlap areIntervalsOverlapping
  simp only [Bool.and_eq_true, decide_eq_true_eq]
  rw [min_eq_left h1, max_eq_right h1, min_eq_left h2, max_eq_right h2]

/-! ## Claim theorems -/

/-- C8: `doTimeRangesOverlap` is strict intersection on well-formed intervals,
touching endpoints never count as overlap, and `checkCollision` reports no
collision when the candidate merely abuts (or avoids) every fixed event and
every locked block. -/
theorem C8_overlap_excludes_touching :
    (∀ s1 e1 s2 e2 : ℤ, s1 ≤ e1 → s2 ≤ e2 →
      (doTimeRangesOverlap s1 e1 s2 e2 = true ↔ s1 < e2 ∧ s2 < e1)) ∧
    (∀ s1 m e2 : ℤ, s1 ≤ m → m ≤ e2 → doTimeRangesOverlap s1 m m e2 = false) ∧
    (∀ (newStart newEnd : ℤ) (fixedEvents : List FixedEvent)
        (lockedBlocks : List ScheduleBlock) (excludeBlockId : Option String),
      newStart ≤ newEnd → EventsWF fixedEvents → BlocksWF lockedBlocks →
      (∀ e ∈ fixedEvents, e.end_at ≤ newStart ∨ newEnd ≤ e.start_at) →
      (∀ b ∈ lockedBlocks, b.end_at ≤ newStart ∨ newEnd ≤ b.start_at) →
      (checkCollision newStart newEnd fixedEvents lockedBlocks
        excludeBlockId).hasCollision = false) := by
  refine ⟨fun s1 e1 s2 e2 h1 h2 => overlap_iff_strict h1 h2, ?_, ?_⟩
  · intro s1 m e2 h1 h2
    exact overlap_eq_false_of_disjoint h1 h2 (Or.inr le_rfl)
  · intro newStart newEnd fixedEvents lockedBlocks excludeBlockId hse hev hbl hde hdb
    unfold checkCollision
    rw [List.find?_eq_none.mpr (fun e he => by
      rw [overlap_eq_false_of_disjoint hse (hev e he) (hde e he)]
      exact Bool.false_ne_true)]
    rw [List.find?_eq_none.mpr (fun b hb => by
      rw [overlap_eq_false_of_disjoint hse (hbl b hb) (hdb b hb)]
      simp)]

/-- The final state behind a nonempty run, with its invariant. -/
theorem generate_createdBlocks_eq {tasks : List Task}
    {fixedEvents : List FixedEvent} {lockedBlocks : List ScheduleBlock}
    {config : SchedulerConfig} {now : ℤ}
    (h : (eligibleTasksOf tasks now).isEmpty = false) :
    (generateScheduleBlocks tasks fixedEvents lockedBlocks config now).createdBlocks =
      (engineFinalState tasks fixedEvents lockedBlocks config now).createdBlocks := by
  rw [generateScheduleBlocks_eq h]

/-- C1: every generated block is disjoint (in the engine's own overlap test)
from every fixed event and every locked block supplied as input. -/
theorem C1_blocks_avoid_walls (tasks : List Task) (fixedEvents : List FixedEvent)
    (lockedBlocks : List ScheduleBlock) (config : SchedulerConfig) (now : ℤ)
    (hcfg : ConfigWF config) (hev : EventsWF fixedEvents)
    (hbl : BlocksWF lockedBlocks) (hids : (tasks.map fun t => t.id).Nodup) :
    ∀ b ∈ (generateScheduleBlocks tasks fixedEvents lockedBlocks config
        now).createdBlocks,
      (∀ e ∈ fixedEvents,
        doTimeRangesOverlap b.start_at b.end_at e.start_at e.end_at = false) ∧
      (∀ lb ∈ lockedBlocks,
        doTimeRangesOverlap b.start_at b.end_at lb.start_at lb.end_at = false) := by
  intro b hb
  cases hemp : (eligibleTasksOf tasks now).isEmpty with
  | true =>
      rw [generateScheduleBlocks_empty hemp] at hb
      exact absurd hb (by simp)
  | false =>
      rw [generate_createdBlocks_eq hemp] at hb
      have hinv := engineFinalState_inv tasks fixedEvents lockedBlocks config now
        hcfg hev hbl hids
      have hshape := hinv.block_shape b hb
      have hwfb : b.start_at ≤ b.end_at := by
        have h1 := hshape.1
        have h2 := hshape.2
        have h3 := hcfg.1
        omega
      constructor
      · intro e he
        have hwmem : ((e.start_at, e.end_at) : ℤ × ℤ) ∈
            getBlockedRanges fixedEvents lockedBlocks :=
          mem_getBlockedRanges.mpr
            (List.mem_append.mpr (Or.inl (List.mem_map_of_mem _ he)))
        exact overlap_eq_false_of_disjoint hwfb (hev e he)
          (hinv.block_walls b hb _ hwmem)
      · intro lb hlb
        have hwmem : ((lb.start_at, lb.end_at) : ℤ × ℤ) ∈
            getBlockedRanges fixedEvents lockedBlocks :=
          mem_getBlockedRanges.mpr
            (List.mem_append.mpr (Or.inr (List.mem_map_of_mem _ hlb)))
        exact overlap_eq_false_of_disjoint hwfb (hbl lb hlb)
          (hinv.block_walls b hb _ hwmem)

/-- C1 witness: a concrete run around a fixed event and a foreign locked
block. -/
theorem C1_witness :
    ConfigWF DEFAULT_SCHEDULER_CONFIG ∧
    EventsWF [sampleFixedEvent 2040 2520] ∧
    BlocksWF [sampleLockedBlock "lb1" "t9" 840 900] ∧
    (([sampleTask "t1" 7200 2].map fun t => t.id).Nodup) ∧
    (∀ b ∈ (generateScheduleBlocks [sampleTask "t1" 7200 2]
        [sampleFixedEvent 2040 2520] [sampleLockedBlock "lb1" "t9" 840 900]
        DEFAULT_SCHEDULER_CONFIG 0).createdBlocks,
      (∀ e ∈ [sampleFixedEvent 2040 2520],
        doTimeRangesOverlap b.start_at b.end_at e.start_at e.end_at = false) ∧
      (∀ lb ∈ [sampleLockedBlock "lb1" "t9" 840 900],
        doTimeRangesOverlap b.start_at b.end_at lb.start_at lb.end_at = false)) :=
  ⟨by decide, by decide, by decide, by decide,
    C1_blocks_avoid_walls [sampleTask "t1" 7200 2] [sampleFixedEvent 2040 2520]
      [sampleLockedBlock "lb1" "t9" 840 900] DEFAULT_SCHEDULER_CONFIG 0
      (by decide) (by decide) (by decide) (by decide)⟩

/-- C2: no two blocks created in one run overlap each other. -/
theorem C2_blocks_pairwise_disjoint (tasks : List Task)
    (fixedEvents : List FixedEvent) (lockedBlocks : List ScheduleBlock)
    (config : SchedulerConfig) (now : ℤ)
    (hcfg : ConfigWF config) (hev : EventsWF fixedEvents)
    (hbl : BlocksWF lockedBlocks) (hids : (tasks.map fun t => t.id).Nodup) :
    (generateScheduleBlocks tasks fixedEvents lockedBlocks config
      now).createdBlocks.Pairwise fun b1 b2 =>
        doTimeRangesOverlap b1.start_at b1.end_at b2.start_at b2.end_at = false := by
  cases hemp : (eligibleTasksOf tasks now).isEmpty with
  | true =>
      rw [generateScheduleBlocks_empty hemp]
      exact List.Pairwise.nil
  | false =>
      rw [generate_createdBlocks_eq hemp]
      have hinv := engineFinalState_inv tasks fixedEvents lockedBlocks config now
        hcfg hev hbl hids
      refine hinv.block_pairwise.imp_of_mem ?_
      intro b1 b2 h1 h2 hdis
      have hs1 := hinv.block_shape b1 h1
      have hs2 := hinv.block_shape b2 h2
      have hmin := hcfg.1
      refine overlap_eq_false_of_disjoint ?_ ?_ ?_
      · have := hs1.1; have := hs1.2; omega
      · have := hs2.1; have := hs2.2; omega
      · rcases hdis with h | h
        · exact Or.inr h
        · exact Or.inl h

/-- C2 witness: a run that produces two blocks on different days. -/
theorem C2_witness :
    ConfigWF DEFAULT_SCHEDULER_CONFIG ∧
    (([sampleTask "t1" 7200 3].map fun t => t.id).Nodup) ∧
    (generateScheduleBlocks [sampleTask "t1" 7200 3] [] []
      DEFAULT_SCHEDULER_CONFIG 0).createdBlocks.Pairwise (fun b1 b2 =>
        doTimeRangesOverlap b1.start_at b1.end_at b2.start_at b2.end_at = false) :=
  ⟨by decide, by decide,
    C2_blocks_pairwise_disjoint [sampleTask "t1" 7200 3] [] []
      DEFAULT_SCHEDULER_CONFIG 0 (by decide) (by decide) (by decide) (by decide)⟩

/-- C3 counterexample: with a deadline thirty minutes into day 1 and three
hours of effort, the engine places a session that ends after the deadline
(the deadline check is day-granular). -/
theorem C3_counterexample :
    (sampleTask "t1" 1470 3).deadline = 1470 ∧
    (generateScheduleBlocks [sampleTask "t1" 1470 3] [] []
      DEFAULT_SCHEDULER_CONFIG 0).createdBlocks.any
        (fun b => decide ((sampleTask "t1" 1470 3).deadline < b.end_at)) = true := by
  constructor
  · rfl
  · decide

/-- C3 amended: every created block lies on a calendar day whose start
(midnight) is at or before its task's deadline; the block itself may end after
the deadline within that day. -/
theorem C3_amended_day_before_deadline (tasks : List Task)
    (fixedEvents : List FixedEvent) (lockedBlocks : List ScheduleBlock)
    (config : SchedulerConfig) (now : ℤ)
    (hcfg : ConfigWF config) (hev : EventsWF fixedEvents)
    (hbl : BlocksWF lockedBlocks) (hids : (tasks.map fun t => t.id).Nodup) :
    ∀ b ∈ (generateScheduleBlocks tasks fixedEvents lockedBlocks config
        now).createdBlocks,
      ∀ t ∈ tasks, t.id = b.task_id → startOfDay b.start_at ≤ t.deadline := by
  intro b hb t ht hid
  cases hemp : (eligibleTasksOf tasks now).isEmpty with
  | true =>
      rw [generateScheduleBlocks_empty hemp] at hb
      exact absurd hb (by simp)
  | false =>
      rw [generate_createdBlocks_eq hemp] at hb
      have hinv := engineFinalState_inv tasks fixedEvents lockedBlocks config now
        hcfg hev hbl hids
      obtain ⟨t0, ht0, hbt0⟩ := hinv.block_ctx b hb
      have ht0tasks : t0 ∈ tasks :=
        List.mem_of_mem_filter ((scheduledTasksOf_perm tasks now).mem_iff.mp ht0)
      have hteq : t = t0 :=
        List.inj_on_of_nodup_map hids ht ht0tasks (by rw [hid, hbt0])
      rw [hteq]
      exact hinv.block_deadline b hb t0 ht0 hbt0.symm

/-- C3 amended witness: the counterexample input satisfies the amended bound. -/
theorem C3_amended_witness :
    ConfigWF DEFAULT_SCHEDULER_CONFIG ∧
    (∀ b ∈ (generateScheduleBlocks [sampleTask "t1" 1470 3] [] []
        DEFAULT_SCHEDULER_CONFIG 0).createdBlocks,
      ∀ t ∈ [sampleTask "t1" 1470 3], t.id = b.task_id →
        startOfDay b.start_at ≤ t.deadline) :=
  ⟨by decide,
    C3_amended_day_before_deadline [sampleTask "t1" 1470 3] [] []
      DEFAULT_SCHEDULER_CONFIG 0 (by decide) (by decide) (by decide) (by decide)⟩

/-- C6: every created block sits inside the configured work window of its own
calendar day, and is never placed on a weekday with no configured window. -/
theorem C6_window_confinement (tasks : List Task) (fixedEvents : List FixedEvent)
    (lockedBlocks : List ScheduleBlock) (config : SchedulerConfig) (now : ℤ)
    (hcfg : ConfigWF config) (hev : EventsWF fixedEvents)
    (hbl : BlocksWF lockedBlocks) (hids : (tasks.map fun t => t.id).Nodup) :
    ∀ b ∈ (generateScheduleBlocks tasks fixedEvents lockedBlocks config
        now).createdBlocks,
      ∃ dh, config.dailyWorkHours.lookup (getDay b.start_at) = some dh ∧
        startOfDay b.start_at + 60 * dh.start ≤ b.start_at ∧
        b.end_at ≤ startOfDay b.start_at + 60 * dh.«end» := by
  intro b hb
  cases hemp : (eligibleTasksOf tasks now).isEmpty with
  | true =>
      rw [generateScheduleBlocks_empty hemp] at hb
      exact absurd hb (by simp)
  | false =>
      rw [generate_createdBlocks_eq hemp] at hb
      exact (engineFinalState_inv tasks fixedEvents lockedBlocks config now
        hcfg hev hbl hids).block_window b hb

/-- C6 witness: a run with a wall still confines blocks to the work window. -/
theorem C6_witness :
    ConfigWF DEFAULT_SCHEDULER_CONFIG ∧
    EventsWF [sampleFixedEvent 600 1080] ∧
    (∀ b ∈ (generateScheduleBlocks [sampleTask "t1" 7200 2]
        [sampleFixedEvent 600 1080] [] DEFAULT_SCHEDULER_CONFIG 0).createdBlocks,
      ∃ dh, DEFAULT_SCHEDULER_CONFIG.dailyWorkHours.lookup (getDay b.start_at) =
          some dh ∧
        startOfDay b.start_at + 60 * dh.start ≤ b.start_at ∧
        b.end_at ≤ startOfDay b.start_at + 60 * dh.«end») :=
  ⟨by decide, by decide,
    C6_window_confinement [sampleTask "t1" 7200 2] [sampleFixedEvent 600 1080]
      [] DEFAULT_SCHEDULER_CONFIG 0 (by decide) (by decide) (by decide) (by decide)⟩

/-- C4 (bug evidence): with a task of 3h effort and a pre-existing 2h locked
block of the same task, the engine still creates a full 3h of new blocks and
issues no warning — pre-existing locked minutes are never subtracted from the
task's remaining effort (the repo's own test expects at most 90 new minutes
here). -/
theorem C4_code_bug_eval :
    blockMinutes ((generateScheduleBlocks [sampleTask "t1" 10080 3] []
      [sampleLockedBlock "lb1" "t1" 600 720] DEFAULT_SCHEDULER_CONFIG
      0).createdBlocks.filter fun b => b.task_id == "t1") = 180 ∧
    blockMinutes ([sampleLockedBlock "lb1" "t1" 600 720].filter fun b =>
      b.task_id == "t1") = 120 ∧
    (sampleTask "t1" 10080 3).estimated_hours * 60 = 180 ∧
    (generateScheduleBlocks [sampleTask "t1" 10080 3] []
      [sampleLockedBlock "lb1" "t1" 600 720] DEFAULT_SCHEDULER_CONFIG
      0).warnings = [] := by
  refine ⟨by decide, by decide, by decide, by decide⟩

/-- C5 (bug evidence): a task whose effort is already fully covered by a
locked block still receives a warning when no new block can be placed — the
warning condition compares created minutes alone against the effort, ignoring
locked minutes. -/
theorem C5_code_bug_eval :
    (generateScheduleBlocks [sampleTask "t1" 10080 1] []
      [sampleLockedBlock "lb1" "t1" 600 660] configNoWorkHours
      0).createdBlocks = [] ∧
    ((generateScheduleBlocks [sampleTask "t1" 10080 1] []
      [sampleLockedBlock "lb1" "t1" 600 660] configNoWorkHours
      0).warnings.map fun w => w.taskId) = ["t1"] ∧
    (generateScheduleBlocks [sampleTask "t1" 10080 1] []
      [sampleLockedBlock "lb1" "t1" 600 660] configNoWorkHours
      0).success = false ∧
    blockMinutes [sampleLockedBlock "lb1" "t1" 600 660] = 60 ∧
    (sampleTask "t1" 10080 1).estimated_hours * 60 = 60 := by
  refine ⟨by decide, by decide, by decide, by decide, by decide⟩

/-- C9 counterexample: with `minBlockMinutes > maxBlockMinutes` the engine does
not abort; it returns a fully computed `SchedulerResult` (no blocks, one
warning per eligible task). -/
theorem C9_counterexample :
    configMinOverMax.maxBlockMinutes < configMinOverMax.minBlockMinutes ∧
    generateScheduleBlocks [sampleTask "t1" 10080 2] [] [] configMinOverMax 0 =
      { success := false
        createdBlocks := []
        warnings := [{ taskId := "t1"
                       taskTitle := "t1"
                       message := "Impossible de planifier avant la date limite"
                       unscheduledHours := ⟨120, 60⟩ }] } := by
  refine ⟨by decide, by decide⟩

/-- With an inverted session-length range nothing can ever be placed. -/
theorem placeForTask_noplace {now : ℤ} {config : SchedulerConfig} {st : RRState}
    {i : ℕ} (hmm : config.maxBlockMinutes < config.minBlockMinutes)
    (hmin : 0 < config.minBlockMinutes) :
    placeForTask now config st i = (st, false) := by
  rcases placeForTask_spec now config st i with h |
    ⟨tc, dayIndex, dayInv, dur, slot, _, _, _, hdureq, hdurlt, _, _⟩
  · exact h
  · exfalso
    have hcal := calculateOptimalSessionDuration_spec tc dayInv st.dailyTaskUsage config
    rw [hdureq] at hcal
    rcases hcal with h0 | ⟨hmind, _, _, _, hmaxle⟩
    · exact hdurlt (by rw [h0]; exact hmin)
    · omega

theorem roundAux_noplace {now : ℤ} {config : SchedulerConfig}
    (hmm : config.maxBlockMinutes < config.minBlockMinutes)
    (hmin : 0 < config.minBlockMinutes) :
    ∀ {remaining : ℕ} {st : RRState} {k : ℕ} {placed : Bool},
      roundAux now config st k remaining placed = (st, placed) := by
  intro remaining
  induction remaining with
  | zero => intro st k placed; rfl
  | succ remaining ih =>
      intro st k placed
      show roundAux now config (placeForTask now config st k).1 (k + 1) remaining
        (placed || (placeForTask now config st k).2) = (st, placed)
      rw [placeForTask_noplace hmm hmin]
      show roundAux now config st (k + 1) remaining (placed || false) = (st, placed)
      rw [Bool.or_false]
      exact ih

theorem rrLoopAux_noplace {now : ℤ} {config : SchedulerConfig}
    (hmm : config.maxBlockMinutes < config.minBlockMinutes)
    (hmin : 0 < config.minBlockMinutes) :
    ∀ {fuel : ℕ} {st : RRState},
      (rrLoopAux now config fuel st).createdBlocks = st.createdBlocks ∧
      (rrLoopAux now config fuel st).contexts = st.contexts := by
  intro fuel
  induction fuel with
  | zero => intro st; exact ⟨rfl, rfl⟩
  | succ fuel ih =>
      intro st
      unfold rrLoopAux
      rw [roundAux_noplace hmm hmin]
      dsimp only
      rw [if_neg Bool.false_ne_true]
      split
      · exact ⟨rfl, rfl⟩
      · split
        · exact ⟨rfl, rfl⟩
        · exact ih

theorem warningsOf_length_of_pos {ctxs : List TaskSchedulingContext}
    (h : ∀ c ∈ ctxs, 0 < c.remainingMinutes) :
    (warningsOf ctxs).length = ctxs.length := by
  induction ctxs with
  | nil => rfl
  | cons c t ih =>
      unfold warningsOf
      rw [List.filterMap_cons, if_pos (h c (List.mem_cons_self _ _))]
      show (_ :: warningsOf t).length = t.length + 1
      rw [List.length_cons, ih fun c' hc' => h c' (List.mem_cons_of_mem _ hc')]

theorem isEmpty_eq_of_length_eq {α β : Type} {l1 : List α} {l2 : List β}
    (h : l1.length = l2.length) : l1.isEmpty = l2.isEmpty := by
  cases l1 <;> cases l2 <;> simp_all

/-- C9 amended: the engine performs no config validation.  On a config with
`minBlockMinutes > maxBlockMinutes` (and a positive minimum) it raises
nothing and returns a computed `SchedulerResult`: no blocks are created, every
eligible task receives a warning, and `success` holds exactly when no task was
eligible. -/
theorem C9_amended_no_validation (tasks : List Task)
    (fixedEvents : List FixedEvent) (lockedBlocks : List ScheduleBlock)
    (config : SchedulerConfig) (now : ℤ)
    (hmm : config.maxBlockMinutes < config.minBlockMinutes)
    (hmin : 0 < config.minBlockMinutes) :
    (generateScheduleBlocks tasks fixedEvents lockedBlocks config
      now).createdBlocks = [] ∧
    (generateScheduleBlocks tasks fixedEvents lockedBlocks config
      now).warnings.length = (eligibleTasksOf tasks now).length ∧
    (generateScheduleBlocks tasks fixedEvents lockedBlocks config
      now).success = (eligibleTasksOf tasks now).isEmpty := by
  cases hemp : (eligibleTasksOf tasks now).isEmpty with
  | true =>
      rw [generateScheduleBlocks_empty hemp]
      refine ⟨rfl, ?_, rfl⟩
      rw [List.isEmpty_iff.mp hemp]
      rfl
  | false =>
      rw [generateScheduleBlocks_eq hemp]
      have hnp := @rrLoopAux_noplace now _ hmm hmin 200
        (initialRRState (sortTaskContexts ((eligibleTasksOf tasks now).map
          fun task => mkTaskContext task now))
          (buildDailySlotInventory (startOfDay now)
            (horizonDaysOf (eligibleTasksOf tasks now) now).toNat
            (getBlockedRanges fixedEvents lockedBlocks) config))
      have hfs : engineFinalState tasks fixedEvents lockedBlocks config now =
          rrLoopAux now config 200
            (initialRRState (sortTaskContexts ((eligibleTasksOf tasks now).map
              fun task => mkTaskContext task now))
              (buildDailySlotInventory (startOfDay now)
                (horizonDaysOf (eligibleTasksOf tasks now) now).toNat
                (getBlockedRanges fixedEvents lockedBlocks) config)) := rfl
      have hpos : ∀ c ∈ sortTaskContexts ((eligibleTasksOf tasks now).map
          fun task => mkTaskContext task now), 0 < c.remainingMinutes := by
        intro c hc
        have hc' : c ∈ (eligibleTasksOf tasks now).map fun task =>
            mkTaskContext task now :=
          (List.perm_insertionSort _ _).mem_iff.mp hc
        obtain ⟨t, ht, rfl⟩ := List.mem_map.mp hc'
        have := List.of_mem_filter ht
        simp only [Bool.and_eq_true, decide_eq_true_eq] at this
        show (0 : ℤ) < t.estimated_hours * 60
        omega
      have hlen : (sortTaskContexts ((eligibleTasksOf tasks now).map fun task =>
          mkTaskContext task now)).length = (eligibleTasksOf tasks now).length := by
        unfold sortTaskContexts
        rw [(List.perm_insertionSort _ _).length_eq, List.length_map]
      have hctx : (engineFinalState tasks fixedEvents lockedBlocks config
          now).contexts = sortTaskContexts ((eligibleTasksOf tasks now).map
          fun task => mkTaskContext task now) := by
        rw [hfs]
        exact hnp.2
      have hwarnlen : (warningsOf (engineFinalState tasks fixedEvents lockedBlocks
          config now).contexts).length = (eligibleTasksOf tasks now).length := by
        rw [hctx, warningsOf_length_of_pos hpos, hlen]
      refine ⟨?_, hwarnlen, ?_⟩
      · show (engineFinalState tasks fixedEvents lockedBlocks config
          now).createdBlocks = []
        rw [hfs]
        exact hnp.1
      · show (warningsOf (engineFinalState tasks fixedEvents lockedBlocks config
          now).contexts).isEmpty = false
        exact (isEmpty_eq_of_length_eq hwarnlen).trans hemp

/-- C9 amended witness: the malformed sample config. -/
theorem C9_amended_witness :
    configMinOverMax.maxBlockMinutes < configMinOverMax.minBlockMinutes ∧
    (0 : ℤ) < configMinOverMax.minBlockMinutes ∧
    (generateScheduleBlocks [sampleTask "t1" 10080 2] [] [] configMinOverMax
      0).createdBlocks = [] ∧
    (generateScheduleBlocks [sampleTask "t1" 10080 2] [] [] configMinOverMax
      0).warnings.length = (eligibleTasksOf [sampleTask "t1" 10080 2] 0).length ∧
    (generateScheduleBlocks [sampleTask "t1" 10080 2] [] [] configMinOverMax
      0).success = (eligibleTasksOf [sampleTask "t1" 10080 2] 0).isEmpty :=
  ⟨by decide, by decide,
    (C9_amended_no_validation [sampleTask "t1" 10080 2] [] [] configMinOverMax 0
      (by decide) (by decide)).1,
    (C9_amended_no_validation [sampleTask "t1" 10080 2] [] [] configMinOverMax 0
      (by decide) (by decide)).2.1,
    (C9_amended_no_validation [sampleTask "t1" 10080 2] [] [] configMinOverMax 0
      (by decide) (by decide)).2.2⟩

/-- C8 witness: back-to-back intervals do not overlap, and a candidate abutting
a fixed event passes the collision check. -/
theorem C8_witness :
    (0 : ℤ) ≤ 60 ∧ (60 : ℤ) ≤ 120 ∧
    doTimeRangesOverlap 0 60 60 120 = false ∧
    (checkCollision 0 60 [sampleFixedEvent 60 120] [sampleLockedBlock "b1" "t1" 120 180]
      none).hasCollision = false :=
  ⟨by decide, by decide,
    C8_overlap_excludes_touching.2.1 0 60 120 (by decide) (by decide),
    C8_overlap_excludes_touching.2.2 0 60 [sampleFixedEvent 60 120]
      [sampleLockedBlock "b1" "t1" 120 180] none (by decide) (by decide) (by decide)
      (by decide) (by decide)⟩

/-- C7: the engine silently excludes ineligible tasks.  A task with
non-positive effort or a deadline at or before `now` contributes neither a
created block nor a warning, and when no task is eligible (in particular with
zero tasks) the result is exactly
`{success := true, createdBlocks := [], warnings := []}`. -/
theorem C7_ineligible_tasks_excluded (tasks : List Task)
    (fixedEvents : List FixedEvent) (lockedBlocks : List ScheduleBlock)
    (config : SchedulerConfig) (now : ℤ)
    (hcfg : ConfigWF config) (hev : EventsWF fixedEvents)
    (hbl : BlocksWF lockedBlocks) (hids : (tasks.map fun t => t.id).Nodup) :
    ((eligibleTasksOf tasks now).isEmpty = true →
      generateScheduleBlocks tasks fixedEvents lockedBlocks config now =
        { success := true, createdBlocks := [], warnings := [] }) ∧
    (∀ t ∈ tasks, ¬ eligibleTask now t →
      (∀ b ∈ (generateScheduleBlocks tasks fixedEvents lockedBlocks config
          now).createdBlocks, b.task_id ≠ t.id) ∧
      (∀ w ∈ (generateScheduleBlocks tasks fixedEvents lockedBlocks config
          now).warnings, w.taskId ≠ t.id)) := by
  refine ⟨generateScheduleBlocks_empty, ?_⟩
  intro t ht hinel
  cases hemp : (eligibleTasksOf tasks now).isEmpty with
  | true =>
      rw [generateScheduleBlocks_empty hemp]
      exact ⟨fun b hb => absurd hb (by simp), fun w hw => absurd hw (by simp)⟩
  | false =>
      have hinv := engineFinalState_inv tasks fixedEvents lockedBlocks config now
        hcfg hev hbl hids
      have key : ∀ t0 ∈ scheduledTasksOf tasks now, t0.id ≠ t.id := by
        intro t0 ht0 heq
        have ht0e : t0 ∈ eligibleTasksOf tasks now :=
          (scheduledTasksOf_perm tasks now).mem_iff.mp ht0
        have ht0t : t0 ∈ tasks := List.mem_of_mem_filter ht0e
        have heqt : t0 = t := List.inj_on_of_nodup_map hids ht0t ht heq
        rw [heqt] at ht0e
        have hcond := List.of_mem_filter ht0e
        simp only [Bool.and_eq_true, decide_eq_true_eq] at hcond
        exact hinel ⟨hcond.1, hcond.2⟩
      constructor
      · intro b hb
        rw [generate_createdBlocks_eq hemp] at hb
        obtain ⟨t0, ht0, hbt0⟩ := hinv.block_ctx b hb
        rw [hbt0]
        exact key t0 ht0
      · intro w hw
        rw [generateScheduleBlocks_eq hemp] at hw
        have hw2 : w ∈ warningsOf (engineFinalState tasks fixedEvents lockedBlocks
            config now).contexts := hw
        unfold warningsOf at hw2
        obtain ⟨c, hc, hfc⟩ := List.mem_filterMap.mp hw2
        by_cases hr : 0 < c.remainingMinutes
        · rw [if_pos hr] at hfc
          have hwid : w.taskId = c.task.id := by
            rw [← Option.some.inj hfc]
          have hct : c.task ∈ scheduledTasksOf tasks now := by
            rw [← hinv.ctx_tasks]
            exact List.mem_map_of_mem _ hc
          rw [hwid]
          exact key c.task hct
        · rw [if_neg hr] at hfc
          exact absurd hfc (by simp)

/-- C7 witness: a run mixing an expired task with an eligible one excludes the
expired task from blocks and warnings alike. -/
theorem C7_witness :
    ConfigWF DEFAULT_SCHEDULER_CONFIG ∧
    (([sampleTask "t0" (-100) 2, sampleTask "t1" 7200 2].map fun t => t.id).Nodup) ∧
    (((eligibleTasksOf [sampleTask "t0" (-100) 2, sampleTask "t1" 7200 2]
        0).isEmpty = true →
      generateScheduleBlocks [sampleTask "t0" (-100) 2, sampleTask "t1" 7200 2]
        [] [] DEFAULT_SCHEDULER_CONFIG 0 =
        { success := true, createdBlocks := [], warnings := [] }) ∧
    (∀ t ∈ [sampleTask "t0" (-100) 2, sampleTask "t1" 7200 2],
      ¬ eligibleTask 0 t →
      (∀ b ∈ (generateScheduleBlocks
          [sampleTask "t0" (-100) 2, sampleTask "t1" 7200 2] [] []
          DEFAULT_SCHEDULER_CONFIG 0).createdBlocks, b.task_id ≠ t.id) ∧
      (∀ w ∈ (generateScheduleBlocks
          [sampleTask "t0" (-100) 2, sampleTask "t1" 7200 2] [] []
          DEFAULT_SCHEDULER_CONFIG 0).warnings, w.taskId ≠ t.id))) :=
  ⟨by decide, by decide,
    C7_ineligible_tasks_excluded
      [sampleTask "t0" (-100) 2, sampleTask "t1" 7200 2] [] []
      DEFAULT_SCHEDULER_CONFIG 0 (by decide) (by decide) (by decide) (by decide)⟩

/-- C10: in every run, the blocks created on any single calendar day total at
most `ROUND_ROBIN_CONFIG.MAX_DAILY_TOTAL_STUDY` minutes, and the blocks created
for any single task on any single day total at most
`config.maxDailyMinutesPerTask` minutes. -/
theorem C10_daily_caps (tasks : List Task) (fixedEvents : List FixedEvent)
    (lockedBlocks : List ScheduleBlock) (config : SchedulerConfig) (now : ℤ)
    (hcfg : ConfigWF config) (hev : EventsWF fixedEvents)
    (hbl : BlocksWF lockedBlocks) (hids : (tasks.map fun t => t.id).Nodup) :
    ∀ D : ℤ,
      blockMinutes ((generateScheduleBlocks tasks fixedEvents lockedBlocks config
        now).createdBlocks.filter fun b => startOfDay b.start_at == D) ≤
        ROUND_ROBIN_CONFIG.MAX_DAILY_TOTAL_STUDY ∧
      ∀ tid : String,
        blockMinutes ((generateScheduleBlocks tasks fixedEvents lockedBlocks config
          now).createdBlocks.filter fun b =>
            b.task_id == tid && (startOfDay b.start_at == D)) ≤
          config.maxDailyMinutesPerTask := by
  intro D
  cases hemp : (eligibleTasksOf tasks now).isEmpty with
  | true =>
      rw [generateScheduleBlocks_empty hemp]
      constructor
      · show blockMinutes (List.filter _ []) ≤ ROUND_ROBIN_CONFIG.MAX_DAILY_TOTAL_STUDY
        rw [List.filter_nil]
        decide
      · intro tid
        show blockMinutes (List.filter _ []) ≤ config.maxDailyMinutesPerTask
        rw [List.filter_nil]
        have h0 : blockMinutes ([] : List ScheduleBlock) = 0 := rfl
        rw [h0]
        exact hcfg.2.2.1
  | false =>
      rw [generate_createdBlocks_eq hemp]
      have hinv := engineFinalState_inv tasks fixedEvents lockedBlocks config now
        hcfg hev hbl hids
      by_cases hex : ∃ b ∈ (engineFinalState tasks fixedEvents lockedBlocks config
          now).createdBlocks, startOfDay b.start_at = D
      · obtain ⟨b0, hb0, hbD⟩ := hex
        obtain ⟨i, hi, hday, _⟩ := hinv.block_day b0 hb0
        have hD : D = startOfDay now + 1440 * (i : ℤ) := by rw [← hbD, hday]
        subst hD
        constructor
        · rw [← (hinv.used_eq i hi).1]
          exact (hinv.used_eq i hi).2
        · intro tid
          rw [← (hinv.usage_eq i tid).1]
          exact (hinv.usage_eq i tid).2
      · push_neg at hex
        have hnil1 : ((engineFinalState tasks fixedEvents lockedBlocks config
            now).createdBlocks.filter fun b => startOfDay b.start_at == D) = [] := by
          rw [List.filter_eq_nil_iff]
          intro b hb
          simp only [beq_iff_eq]
          exact hex b hb
        have hnil2 : ∀ tid : String, ((engineFinalState tasks fixedEvents
            lockedBlocks config now).createdBlocks.filter fun b =>
              b.task_id == tid && (startOfDay b.start_at == D)) = [] := by
          intro tid
          rw [List.filter_eq_nil_iff]
          intro b hb
          simp only [Bool.and_eq_true, beq_iff_eq, not_and]
          intro _
          exact hex b hb
        constructor
        · rw [hnil1]
          decide
        · intro tid
          rw [hnil2 tid]
          have h0 : blockMinutes ([] : List ScheduleBlock) = 0 := rfl
          rw [h0]
          exact hcfg.2.2.1

/-- C10 witness: a three-hour task spread over two days respects both caps on
day zero. -/
theorem C10_witness :
    ConfigWF DEFAULT_SCHEDULER_CONFIG ∧
    (([sampleTask "t1" 7200 3].map fun t => t.id).Nodup) ∧
    blockMinutes ((generateScheduleBlocks [sampleTask "t1" 7200 3] [] []
      DEFAULT_SCHEDULER_CONFIG 0).createdBlocks.filter fun b =>
        startOfDay b.start_at == 0) ≤ ROUND_ROBIN_CONFIG.MAX_DAILY_TOTAL_STUDY ∧
    blockMinutes ((generateScheduleBlocks [sampleTask "t1" 7200 3] [] []
      DEFAULT_SCHEDULER_CONFIG 0).createdBlocks.filter fun b =>
        b.task_id == "t1" && (startOfDay b.start_at == 0)) ≤
      DEFAULT_SCHEDULER_CONFIG.maxDailyMinutesPerTask :=
  ⟨by decide, by decide,
    (C10_daily_caps [sampleTask "t1" 7200 3] [] [] DEFAULT_SCHEDULER_CONFIG 0
      (by decide) (by decide) (by decide) (by decide) 0).1,
    (C10_daily_caps [sampleTask "t1" 7200 3] [] [] DEFAULT_SCHEDULER_CONFIG 0
      (by decide) (by decide) (by decide) (by decide) 0).2 "t1"⟩

end StudyPlanner
